import Mathlib

/-!
Verification of the graph front-end in
`src/yfiles-vue-integration-basic-master/src/components/GraphComponent.vue`.

The JSON/JavaScript values flowing through the component are modelled by the
inductive `JVal` below.  Embedding notes (the deliberate gaps between
JavaScript runtime values and this model):
* JavaScript numbers are IEEE doubles; the payload code never does arithmetic
  on them (they are only converted with `String(...)` and used as map keys),
  so they are modelled as integers, which covers every id used by the data.
* Objects are association lists; JSON objects have unique keys, so lookup
  returns the first matching field.
* `String(...)` on arrays joins the element strings with commas and on plain
  objects yields "[object Object]", as in JavaScript.
-/

inductive JVal : Type where
  | null : JVal
  | undef : JVal
  | bool : Bool → JVal
  | num : Int → JVal
  | str : String → JVal
  | arr : List JVal → JVal
  | obj : List (String × JVal) → JVal

namespace JVal

/-- Models `v == null` / `v == undefined` under JavaScript loose equality (`!= null`). -/
def isNullish : JVal → Bool
  | .null => true
  | .undef => true
  | _ => false

/-- JavaScript truthiness. -/
def jsTruthy : JVal → Bool
  | .null => false
  | .undef => false
  | .bool b => b
  | .num n => n ≠ 0
  | .str s => s ≠ ""
  | .arr _ => true
  | .obj _ => true

/-- Models `typeof v === 'object'` (true for null, arrays and plain objects). -/
def typeofIsObject : JVal → Bool
  | .null => true
  | .arr _ => true
  | .obj _ => true
  | _ => false

def isStr : JVal → Bool
  | .str _ => true
  | _ => false

/-- Models `v === null` (strict). -/
def isNull : JVal → Bool
  | .null => true
  | _ => false

/-- Models `v === undefined` (strict, as in `e.source_value !== undefined`). -/
def isUndef : JVal → Bool
  | .undef => true
  | _ => false

end JVal


/-!
JavaScript string methods, modelled directly over the character list (the
core-library versions recurse over byte positions and are avoided so that
all definitions reduce by evaluation).
-/

def lowerStr (s : String) : String := ⟨s.data.map Char.toLower⟩

def endsWithStr (s post : String) : Bool := post.data.isSuffixOf s.data

def startsWithStr (s pre : String) : Bool := pre.data.isPrefixOf s.data

def isJsSpace (c : Char) : Bool := c = ' ' || c = '\t' || c = '\n' || c = '\r'

/-- Models `s.trim()`. -/
def trimStr (s : String) : String :=
  ⟨((s.data.dropWhile isJsSpace).reverse.dropWhile isJsSpace).reverse⟩

/-- Models `s.slice(0, s.length - n)` — drop the last `n` characters. -/
def dropRightStr (s : String) (n : Nat) : String :=
  ⟨s.data.take (s.data.length - n)⟩

/-- Models `s.includes(c)` for a single character. -/
def containsChar (s : String) (c : Char) : Bool := s.data.contains c

/-- First-match association-list lookup (JSON objects have unique keys). -/
def lookupS {α : Type} : List (String × α) → String → Option α
  | [], _ => none
  | (k, v) :: t, q => if k = q then some v else lookupS t q

/-- Models `Map.set` / object-field overwrite: replaces the value in place if the key
exists, otherwise appends the pair (JavaScript keeps insertion order). -/
def mset {α : Type} : List (String × α) → String → α → List (String × α)
  | [], k, v => [(k, v)]
  | (k', v') :: t, k, v => if k' = k then (k, v) :: t else (k', v') :: mset t k v

/-- Array element access by a string key (`xs["3"]`), used through `obj[k]`. -/
def arrProp : List JVal → Nat → String → JVal
  | [], _, _ => .undef
  | x :: t, i, k => if toString i = k then x else arrProp t (i + 1) k

/-- JavaScript property access `o[k]` (undefined when absent / not an object). -/
def getProp : JVal → String → JVal
  | .obj fs, k => (lookupS fs k).getD .undef
  | .arr xs, k => arrProp xs 0 k
  | _, _ => (.undef)

/-- Models `Object.keys` (arrays yield their index strings, primitives none). -/
def objKeys : JVal → List String
  | .obj fs => fs.map (·.1)
  | .arr xs => (List.range xs.length).map toString
  | _ => []

/-- The fields contributed by an object spread `{...v}`. -/
def spreadFields : JVal → List (String × JVal)
  | .obj fs => fs
  | .arr xs => xs.mapIdx fun i x => (toString i, x)
  | .str s => s.data.mapIdx fun i c => (toString i, JVal.str c.toString)
  | _ => []

/-- Models `{...fs, k: v}`: overwrite the field in place or append it. -/
def setField (fs : List (String × JVal)) (k : String) (v : JVal) :
    List (String × JVal) := mset fs k v

mutual
/-- JavaScript `String(v)`. -/
def jsToString : JVal → String
  | .null => "null"
  | .undef => "undefined"
  | .bool b => if b then "true" else "false"
  | .num n => toString n
  | .str s => s
  | .arr xs => jsArrString xs
  | .obj _ => "[object Object]"

/-- Array-join semantics of `String([...])` (null/undefined become empty). -/
def jsArrString : List JVal → String
  | [] => ""
  | [x] => jsElemString x
  | x :: xs => jsElemString x ++ "," ++ jsArrString xs

def jsElemString : JVal → String
  | .null => ""
  | .undef => ""
  | .bool b => if b then "true" else "false"
  | .num n => toString n
  | .str s => s
  | .arr xs => jsArrString xs
  | .obj _ => "[object Object]"
end

/-- Models `a ?? b` (nullish coalescing). -/
def jsNullishOr (a b : JVal) : JVal := if a.isNullish then b else a

/-- Models `a || b` on strings (empty string is falsy). -/
def jsOrStr (a b : String) : String := if a = "" then b else a

/-- Truthiness of a `string | null | undefined` JavaScript variable. -/
def osTruthy : Option String → Bool
  | none => false
  | some s => s ≠ ""

/-- Models `!v` for a `string | null` variable (`!from`). -/
def osFalsy (o : Option String) : Bool := !osTruthy o

/-- Keep a map-lookup result only when it is truthy
(the `map.get(k) && ...` idiom). -/
def optTruthyVal : Option String → Option String
  | some g => if g = "" then none else some g
  | none => none

/-- Models `toStr` from `normalizeGraphPayload`: `v == null ? '' : String(v)`. -/
def toStr (v : JVal) : String := if v.isNullish then "" else jsToString v

/-- Models `preferKeys(o, keys)`: the first key whose value is non-nullish
(returns undefined when `o` is falsy or nothing matches). -/
def preferKeys (o : JVal) (keys : List String) : JVal :=
  if o.jsTruthy then
    match keys.find? (fun k => !(getProp o k).isNullish) with
    | some k => getProp o k
    | none => .undef
  else (.undef)

/-- The `/(^|[_-])id$/i` test in `findIdKey`. -/
def idLikeKey (k : String) : Bool :=
  let lk := lowerStr k
  lk = "id" || endsWithStr lk "_id" || endsWithStr lk "-id"

/-- Models `findIdKey(obj, type)` — locate an id-like key of a node object.
Returns the key together with its value, `none` for `{key: null, value: null}`. -/
def findIdKey (o : JVal) (ty : String) : Option (String × JVal) :=
  if o.jsTruthy && o.typeofIsObject then
    let ks := objKeys o
    match ["id", "ID", "_id"].find? (fun k => ks.contains k) with
    | some k => some (k, getProp o k)
    | none =>
      let lt := lowerStr ty
      let spec :=
        if lt ≠ "" then
          ks.find? (fun k => lowerStr k = lt ++ "_id" || lowerStr k = lt ++ "id")
        else none
      match spec with
      | some k => some (k, getProp o k)
      | none =>
        match ks.find? idLikeKey with
        | some k => some (k, getProp o k)
        | none => none
  else none

/-!
### `normalizeGraphPayload` (GraphComponent.vue, lines 1733–1992)
-/

/-- Models `isCanonicalNodeArray`: `nodes` is an array of non-null objects whose
`id` is a string. -/
def isCanonicalNodeArray : JVal → Bool
  | .arr xs =>
      xs.all fun it =>
        !it.isNull && it.typeofIsObject && (getProp it "id").isStr
  | _ => false

/-- Models `isCanonicalEdgeArray`: `edges` is an array of non-null objects with a
string `source`/`from` and a string `target`/`to`. -/
def isCanonicalEdgeArray : JVal → Bool
  | .arr xs =>
      xs.all fun it =>
        !it.isNull && it.typeofIsObject &&
        ((getProp it "source").isStr || (getProp it "from").isStr) &&
        ((getProp it "target").isStr || (getProp it "to").isStr)
  | _ => false

/-- Case A node type: `toStr(preferKeys(n, [type…label])) || 'Node'`. -/
def caseAType (n : JVal) : String :=
  jsOrStr (toStr (preferKeys n ["type", "Type", "nodeType", "labelType", "label", "Label"]))
    "Node"

/-- Case A node key: the found id value, else the 1-based position `i + 1`. -/
def caseAKey (i : Nat) (n : JVal) : String :=
  match findIdKey n (caseAType n) with
  | some (_, v) => if v.isNullish then toString (i + 1) else jsToString v
  | none => toString (i + 1)

/-- Case A node label: `toStr(preferKeys(n, [name…Label])) || type ++ " " ++ key`. -/
def caseALabel (i : Nat) (n : JVal) : String :=
  jsOrStr (toStr (preferKeys n ["name", "Name", "title", "Title", "label", "Label"]))
    (caseAType n ++ " " ++ caseAKey i n)

/-- The node pushed for the `i`-th (0-based) element of a Case A node array:
`{...n, id: globalId, label, type}`. -/
def caseANode (i : Nat) (n : JVal) : JVal :=
  .obj (setField
    (setField
      (setField (spreadFields n) "id" (.str (caseAType n ++ ":" ++ caseAKey i n)))
      "label" (.str (caseALabel i n)))
    "type" (.str (caseAType n)))

/-- The mutable lookup structures of Case A. -/
structure CaseAMaps : Type where
  idToGlobal : List (String × String)
  typeToMap : List (String × List (String × String))
  plainMap : List (String × String)
  hasConflict : List String

def CaseAMaps.empty : CaseAMaps := ⟨[], [], [], []⟩

/-- The map updates performed for the `i`-th node of the Case A loop. -/
def caseAMapsStep (i : Nat) (n : JVal) (m : CaseAMaps) : CaseAMaps :=
  let ty := caseAType n
  let key := caseAKey i n
  let g := ty ++ ":" ++ key
  let idTo :=
    if !(getProp n "id").isNullish && jsToString (getProp n "id") ≠ key then
      mset m.idToGlobal (jsToString (getProp n "id")) g
    else m.idToGlobal
  let inner := (lookupS m.typeToMap ty).getD []
  let typeTo := mset m.typeToMap ty (mset inner key g)
  let conflict := (lookupS m.plainMap key).isSome &&
    (lookupS m.plainMap key ≠ some g)
  let hc := if conflict then key :: m.hasConflict else m.hasConflict
  let plain := if conflict then m.plainMap else mset m.plainMap key g
  ⟨idTo, typeTo, plain, hc⟩

def caseAMapsFrom : Nat → List JVal → CaseAMaps → CaseAMaps
  | _, [], m => m
  | i, n :: rest, m => caseAMapsFrom (i + 1) rest (caseAMapsStep i n m)

/-- Models `resolveRef(val, t)` of Case A.  The recursion through object-shaped
references is driven by a fuel bounding the (finite) nesting depth of `val`;
the top-level call supplies a sufficient fuel. -/
def resolveRef (m : CaseAMaps) : Nat → JVal → JVal → Option String
  | 0, _, _ => none
  | _ + 1, .str s, t =>
      if containsChar s ':' then some s
      else
        let byType :=
          if t.jsTruthy then
            optTruthyVal ((lookupS m.typeToMap (jsToString t)).bind fun mm => lookupS mm s)
          else none
        match byType with
        | some g => some g
        | none =>
          if !m.hasConflict.contains s then
            match optTruthyVal (lookupS m.plainMap s) with
            | some g => some g
            | none => none
          else none
  | _ + 1, .num v, t =>
      let s := toString v
      let byType :=
        if t.jsTruthy then
          optTruthyVal ((lookupS m.typeToMap (jsToString t)).bind fun mm => lookupS mm s)
        else none
      (match byType with
      | some g => some g
      | none =>
        if !m.hasConflict.contains s then
          match optTruthyVal (lookupS m.plainMap s) with
          | some g => some g
          | none => none
        else none)
  | f + 1, .arr xs, _ =>
      let tpe := preferKeys (.arr xs) ["type", "Type"]
      let idv := preferKeys (.arr xs) ["id", "ID", "_id", "value"]
      if !tpe.isNullish && !idv.isNullish then resolveRef m f idv tpe else none
  | f + 1, .obj fs, _ =>
      let tpe := preferKeys (.obj fs) ["type", "Type"]
      let idv := preferKeys (.obj fs) ["id", "ID", "_id", "value"]
      if !tpe.isNullish && !idv.isNullish then resolveRef m f idv tpe else none
  | _ + 1, _, _ => none

mutual
/-- Structural size of a value, used only to bound `resolveRef` recursion. -/
def jsize : JVal → Nat
  | .arr xs => jsizeList xs + 1
  | .obj fs => jsizeFields fs + 1
  | _ => 1

def jsizeList : List JVal → Nat
  | [] => 0
  | x :: t => jsize x + jsizeList t

def jsizeFields : List (String × JVal) → Nat
  | [] => 0
  | (_, v) :: t => jsize v + jsizeFields t
end

def resolveRefTop (m : CaseAMaps) (val t : JVal) : Option String :=
  resolveRef m (jsize val + 1) val t

/-- The edge object pushed by Case A: `{from, to, relationship: rel, label: rel}`. -/
def mkCaseAEdge (f t rel : String) : JVal :=
  .obj [("from", .str f), ("to", .str t), ("relationship", .str rel), ("label", .str rel)]

/-- The final `if (from && to) edges.push(...)` of the Case A edge loop. -/
def caseAFinish (rel : String) : Option String → Option String → Option JVal
  | some f, some t => if f ≠ "" && t ≠ "" then some (mkCaseAEdge f t rel) else none
  | _, _ => none

/-- One iteration of the Case A edge loop (`none` = the edge is dropped). -/
def caseAEdge (m : CaseAMaps) (e : JVal) : Option JVal :=
  let rel := toStr (preferKeys e ["relationship", "label", "type"])
  -- mappings { source_id, target_id } with types from source/target
  let from1 : Option String :=
    if (getProp e "mappings").jsTruthy then
      resolveRefTop m (preferKeys (getProp e "mappings") ["source_id", "sourceId", "srcId", "source"])
        (preferKeys e ["source", "sourceType"])
    else none
  let to1 : Option String :=
    if (getProp e "mappings").jsTruthy then
      resolveRefTop m (preferKeys (getProp e "mappings") ["target_id", "targetId", "dstId", "target"])
        (preferKeys e ["target", "targetType"])
    else none
  -- direct from/to (string or object)
  let from2 :=
    if osFalsy from1 && !(getProp e "from").isNullish then
      resolveRefTop m (getProp e "from") (preferKeys e ["fromType"])
    else from1
  let to2 :=
    if osFalsy to1 && !(getProp e "to").isNullish then
      resolveRefTop m (getProp e "to") (preferKeys e ["toType"])
    else to1
  -- classic *_value with source/target types
  let useVal := (osFalsy from2 || osFalsy to2) &&
    !(getProp e "source").isNullish && !(getProp e "target").isNullish &&
    (!(getProp e "source_value").isNullish || !(getProp e "target_value").isNullish)
  let from3 :=
    if useVal && from2.isNone then
      resolveRefTop m (getProp e "source_value") (getProp e "source")
    else from2
  let to3 :=
    if useVal && to2.isNone then
      resolveRefTop m (getProp e "target_value") (getProp e "target")
    else to2
  -- direct source/target given as id string (or object), without *_value
  let useDirect := (osFalsy from3 || osFalsy to3) &&
    !(getProp e "source").isNullish && !(getProp e "target").isNullish
  let from4 :=
    if useDirect && from3.isNone then
      resolveRefTop m (getProp e "source")
        (preferKeys e ["sourceType", "source_label", "sourceLabel", "sourceCategory"])
    else from3
  let to4 :=
    if useDirect && to3.isNone then
      resolveRefTop m (getProp e "target")
        (preferKeys e ["targetType", "target_label", "targetLabel", "targetCategory"])
    else to3
  -- sourceId/targetId variants with explicit types
  let useIds := (osFalsy from4 || osFalsy to4) &&
    (!(getProp e "sourceId").isNullish || !(getProp e "targetId").isNullish)
  let from5 :=
    if useIds && from4.isNone then
      resolveRefTop m (getProp e "sourceId") (preferKeys e ["sourceType", "source"])
    else from4
  let to5 :=
    if useIds && to4.isNone then
      resolveRefTop m (getProp e "targetId") (preferKeys e ["targetType", "target"])
    else to4
  -- fallback: exact match against node.id
  let srcIsPrim := (getProp e "source").isStr || (getProp e "source") matches .num _
  let tgtIsPrim := (getProp e "target").isStr || (getProp e "target") matches .num _
  let from6 :=
    if (osFalsy from5 || osFalsy to5) && srcIsPrim then
      let s := toStr (getProp e "source")
      let f1 :=
        if osFalsy from5 then
          match optTruthyVal (lookupS m.idToGlobal s) with
          | some g => some g
          | none => from5
        else from5
      if osFalsy f1 && (optTruthyVal (lookupS m.plainMap s)).isSome &&
          !m.hasConflict.contains s then
        optTruthyVal (lookupS m.plainMap s)
      else f1
    else from5
  let to6 :=
    if (osFalsy from6 || osFalsy to5) && tgtIsPrim then
      let s := toStr (getProp e "target")
      let t1 :=
        if osFalsy to5 then
          match optTruthyVal (lookupS m.idToGlobal s) with
          | some g => some g
          | none => to5
        else to5
      if osFalsy t1 && (optTruthyVal (lookupS m.plainMap s)).isSome &&
          !m.hasConflict.contains s then
        optTruthyVal (lookupS m.plainMap s)
      else t1
    else to5
  caseAFinish rel from6 to6

/-!
### Nested-by-type case of `normalizeGraphPayload` (lines 1892–1989)
-/

/-- The id key chosen for a nested node: a type-specific key such as
`Film_ID`, else `id ?? ID ?? _id`, else the 1-based position. -/
def nestedKey (ty : String) (i : Nat) (n : JVal) : String :=
  let lower := lowerStr ty
  let spec := (objKeys n).find? fun k =>
    lowerStr k = lower ++ "_id" || lowerStr k = lower ++ "id"
  let idVal :=
    match spec with
    | some k => getProp n k
    | none =>
        jsNullishOr (getProp n "id") (jsNullishOr (getProp n "ID") (getProp n "_id"))
  if !idVal.isNullish then jsToString idVal else toString (i + 1)

/-- The label of a nested node: `n.name ?? n.Title ?? n.label ?? n.IATA ??
"<type> <key>"` (the raw value is kept, as in the source). -/
def nestedLabel (ty : String) (i : Nat) (n : JVal) : JVal :=
  jsNullishOr (getProp n "name")
    (jsNullishOr (getProp n "Title")
      (jsNullishOr (getProp n "label")
        (jsNullishOr (getProp n "IATA")
          (.str (ty ++ " " ++ nestedKey ty i n)))))

/-- The node pushed for the `i`-th element of type `ty`:
`{...n, id: globalId, label, type}`. -/
def nestedNode (ty : String) (i : Nat) (n : JVal) : JVal :=
  .obj (setField
    (setField
      (setField (spreadFields n) "id" (.str (ty ++ ":" ++ nestedKey ty i n)))
      "label" (nestedLabel ty i n))
    "type" (.str ty))

/-- State threaded through the nested node phase: the pushed nodes, the
`type -> (key -> globalId)` reference map and the Schedule composite map. -/
structure NestedSt : Type where
  nodes : List JVal
  refMap : List (String × List (String × String))
  schedMap : List (String × String)

def NestedSt.empty : NestedSt := ⟨[], [], []⟩

/-- The Schedule composite-key entries registered for one node. -/
def schedAdd (sched : List (String × String)) (n : JVal) (g : String) :
    List (String × String) :=
  let filmId := jsNullishOr (getProp n "Film_ID")
    (jsNullishOr (getProp n "film_id")
      (jsNullishOr (getProp n "FilmId") (getProp n "filmid")))
  let cinemaId := jsNullishOr (getProp n "Cinema_ID")
    (jsNullishOr (getProp n "cinema_id")
      (jsNullishOr (getProp n "CinemaId") (getProp n "cinemaid")))
  let dateVal := jsNullishOr (getProp n "Date") (getProp n "date")
  if !filmId.isNullish && !cinemaId.isNullish then
    let k1 := "film=" ++ jsToString filmId ++ "|cinema=" ++ jsToString cinemaId
    let s1 := mset sched k1 g
    if !dateVal.isNullish then mset s1 (k1 ++ "|date=" ++ jsToString dateVal) g
    else s1
  else sched

/-- Inner loop over one type's node array; also builds that type's key map. -/
def nestedInner (ty : String) :
    Nat → List JVal → NestedSt → List (String × String) →
    NestedSt × List (String × String)
  | _, [], st, mft => (st, mft)
  | i, n :: rest, st, mft =>
    let key := nestedKey ty i n
    let g := ty ++ ":" ++ key
    let sched' := if lowerStr ty = "schedule" then schedAdd st.schedMap n g else st.schedMap
    nestedInner ty (i + 1) rest
      { st with nodes := st.nodes ++ [nestedNode ty i n], schedMap := sched' }
      (mset mft key g)

/-- Outer loop over `Object.entries(nodesRaw)` (non-array values skipped). -/
def nestedOuter : List (String × JVal) → NestedSt → NestedSt
  | [], st => st
  | (ty, v) :: rest, st =>
    match v with
    | .arr xs =>
        let p := nestedInner ty 0 xs st []
        nestedOuter rest { p.1 with refMap := mset p.1.refMap ty p.2 }
    | _ => nestedOuter rest st

/-- A processed nested edge: pushed via the reference maps, passed through
verbatim, or dropped. -/
inductive NEdgeRes : Type where
  | viaMaps : JVal → String → String → NEdgeRes
  | raw : JVal → NEdgeRes
  | drop : NEdgeRes

/-- The edge object pushed by the nested case:
`{from, to, relationship: rel, label: rel, ...(props ? {properties} : {})}`. -/
def mkNestedEdge (f t : String) (rel props : JVal) : JVal :=
  .obj ([("from", .str f), ("to", .str t), ("relationship", rel), ("label", rel)] ++
    (if props.jsTruthy then [("properties", props)] else []))

/-- The classic `*_value` branch (2) together with its Schedule fallback and
the raw passthrough `else if`. -/
def nestedEdgeClassic (st : NestedSt) (e : JVal) : NEdgeRes :=
  let src := getProp e "source"
  let tgt := getProp e "target"
  if e.jsTruthy && src.jsTruthy && tgt.jsTruthy &&
      !(getProp e "source_value").isUndef && !(getProp e "target_value").isUndef then
    let sType := jsToString src
    let tType := jsToString tgt
    let sMap := lookupS st.refMap sType
    let tMap := lookupS st.refMap tType
    let fromId := sMap.bind fun m => lookupS m (jsToString (getProp e "source_value"))
    let toId := tMap.bind fun m => lookupS m (jsToString (getProp e "target_value"))
    let rel := jsNullishOr (getProp e "relationship")
      (jsNullishOr (getProp e "label") (.str ""))
    match fromId, toId with
    | some f, some t =>
        if f ≠ "" && t ≠ "" then
          .viaMaps (mkNestedEdge f t rel (getProp e "edge_properties")) f t
        else .drop
    | _, _ =>
      -- fallback heuristics for special cases (Schedule composite key)
      if lowerStr sType = "schedule" && (getProp e "edge_properties").jsTruthy then
        let props := getProp e "edge_properties"
        let filmId := jsNullishOr (getProp props "Film_ID")
          (jsNullishOr (getProp props "film_id")
            (jsNullishOr (getProp props "FilmId") (getProp props "filmid")))
        let cinemaId := jsNullishOr (getProp props "Cinema_ID")
          (jsNullishOr (getProp props "cinema_id")
            (jsNullishOr (getProp props "CinemaId") (getProp props "cinemaid")))
        let dateVal := jsNullishOr (getProp props "Date") (getProp props "date")
        let fromId2 :=
          if !filmId.isNullish && !cinemaId.isNullish then
            let k1 := "film=" ++ jsToString filmId ++ "|cinema=" ++ jsToString cinemaId
            let k2 := k1 ++ "|date=" ++ jsToString dateVal
            match lookupS st.schedMap k2 with
            | some g => some g
            | none =>
              match lookupS st.schedMap k1 with
              | some g => some g
              | none => fromId
          else fromId
        match fromId2, toId with
        | some f, some t =>
            if f ≠ "" && t ≠ "" then
              .viaMaps (mkNestedEdge f t rel (getProp e "edge_properties")) f t
            else .drop
        | _, _ => .drop
      else .drop
  else
    -- else if (e && (e.from || e.source) && (e.to || e.target)) edges.push(e)
    if e.jsTruthy &&
        ((getProp e "from").jsTruthy || (getProp e "source").jsTruthy) &&
        ((getProp e "to").jsTruthy || (getProp e "target").jsTruthy) then
      .raw e
    else .drop

/-- One iteration of the nested edge loop (branch 1: explicit `mappings`;
falling through to `nestedEdgeClassic` when it does not push). -/
def processNestedEdge (st : NestedSt) (e : JVal) : NEdgeRes :=
  let src := getProp e "source"
  let tgt := getProp e "target"
  let mp := getProp e "mappings"
  if e.jsTruthy && src.jsTruthy && tgt.jsTruthy && mp.jsTruthy && mp.typeofIsObject then
    let sMap := lookupS st.refMap (jsToString src)
    let tMap := lookupS st.refMap (jsToString tgt)
    let sid := jsNullishOr (getProp mp "source_id")
      (jsNullishOr (getProp mp "sourceId")
        (jsNullishOr (getProp mp "srcId") (getProp mp "source")))
    let tid := jsNullishOr (getProp mp "target_id")
      (jsNullishOr (getProp mp "targetId")
        (jsNullishOr (getProp mp "dstId") (getProp mp "target")))
    let fromId := sMap.bind fun m => lookupS m (jsToString sid)
    let toId := tMap.bind fun m => lookupS m (jsToString tid)
    let rel := jsNullishOr (getProp e "relationship")
      (jsNullishOr (getProp e "label") (.str ""))
    match fromId, toId with
    | some f, some t =>
        if f ≠ "" && t ≠ "" then
          .viaMaps (mkNestedEdge f t rel (getProp e "edge_properties")) f t
        else nestedEdgeClassic st e
    | _, _ => nestedEdgeClassic st e
  else nestedEdgeClassic st e

def renderNEdge : NEdgeRes → Option JVal
  | .viaMaps out _ _ => some out
  | .raw e => some e
  | .drop => none

/-- Models `normalizeGraphPayload(raw)` — accepts both the canonical schema and the
nested category schema, returns a canonical `GraphPayload`. -/
def normalizeGraphPayload (raw : JVal) : JVal :=
  let nodesRaw := getProp raw "nodes"
  let edgesRaw := getProp raw "edges"
  if isCanonicalNodeArray nodesRaw && isCanonicalEdgeArray edgesRaw then raw
  else
    match nodesRaw with
    | .arr xs =>
        let m := caseAMapsFrom 0 xs CaseAMaps.empty
        let es :=
          match edgesRaw with
          | .arr el => el.filterMap (caseAEdge m)
          | _ => []
        .obj [("id", getProp raw "id"), ("nodes", .arr (xs.mapIdx caseANode)),
              ("edges", .arr es)]
    | .obj entries =>
        let st := nestedOuter entries NestedSt.empty
        let es :=
          match edgesRaw with
          | .arr el => el.filterMap (fun e => renderNEdge (processNestedEdge st e))
          | _ => []
        .obj [("id", getProp raw "id"), ("nodes", .arr st.nodes), ("edges", .arr es)]
    | _ => raw

/-!
### Layout heuristics (lines 675–704, 1158–1286, 1563–1639)

Geometry uses exact rationals in place of IEEE doubles.  `Math.sqrt` on the
node count (used only inside inequality thresholds and scale factors) is a
parameter `sq` of the functions that call it; `Math.ceil(Math.sqrt(n))` on a
natural node count is modelled by the exact integer ceiling square root
`ceilSqrt` (they agree for every realistic node count).
-/

/-- A node's layout rectangle (`node.layout`). -/
structure NRect : Type where
  x : ℚ
  y : ℚ
  w : ℚ
  h : ℚ

/-- Models `graph.setNodeCenter(node, new Point(cx, cy))`. -/
def setNodeCenter (r : NRect) (cx cy : ℚ) : NRect :=
  ⟨cx - r.w / 2, cy - r.h / 2, r.w, r.h⟩

def baseNodeWidth : ℚ := 260
def baseNodeHeight : ℚ := 200

/-- Search for the least `k ≥ start` with `n ≤ k * k`, with enough fuel. -/
def ceilSqrtAux (n : ℕ) : ℕ → ℕ → ℕ
  | 0, k => k
  | f + 1, k => if n ≤ k * k then k else ceilSqrtAux n f (k + 1)

/-- Models `Math.ceil(Math.sqrt(n))` for a natural `n`: the least `k` with `n ≤ k²`. -/
def ceilSqrt (n : ℕ) : ℕ := ceilSqrtAux n (n + 1) 0

def gridCols (n : ℕ) : ℕ := ceilSqrt n

/-- Models `Math.ceil(nodes.length / cols)`. -/
def gridRows (n : ℕ) : ℕ := (n + gridCols n - 1) / gridCols n

def gridSpacingX : ℚ := baseNodeWidth * 2.3
def gridSpacingY : ℚ := baseNodeHeight * 2.0

def gridStartX (n : ℕ) : ℚ := -(((gridCols n : ℚ) - 1) * gridSpacingX) / 2
def gridStartY (n : ℕ) : ℚ := -(((gridRows n : ℚ) - 1) * gridSpacingY) / 2

/-- The grid center assigned to the node at index `i` of `n` nodes. -/
def gridCenterX (n i : ℕ) : ℚ := gridStartX n + ((i % gridCols n : ℕ) : ℚ) * gridSpacingX
def gridCenterY (n i : ℕ) : ℚ := gridStartY n + ((i / gridCols n : ℕ) : ℚ) * gridSpacingY

/-- Models `spreadNodesInGrid` (lines 1186–1204). -/
def spreadNodesInGrid (ns : List NRect) : List NRect :=
  if ns.length ≤ 1 then ns
  else ns.mapIdx fun i r =>
    setNodeCenter r (gridCenterX ns.length i) (gridCenterY ns.length i)

/-- Models `graphBoundsTooTight` (lines 1158–1184).  The running min/max over the
node rectangles starts from the first node's values, which is equivalent to
the source's ±Infinity initialisation over a non-empty list. -/
def graphBoundsTooTight (sq : ℕ → ℚ) (ns : List NRect) : Bool :=
  if ns.length ≤ 3 then false
  else
    match ns with
    | [] => false
    | n0 :: rest =>
      let minX := rest.foldl (fun a r => min a r.x) n0.x
      let minY := rest.foldl (fun a r => min a r.y) n0.y
      let maxX := rest.foldl (fun a r => max a (r.x + r.w)) (n0.x + n0.w)
      let maxY := rest.foldl (fun a r => max a (r.y + r.h)) (n0.y + n0.h)
      let width := max (maxX - minX) 1
      let height := max (maxY - minY) 1
      let scaleFactor := max 1 (sq ns.length * 0.12)
      let minWidth := baseNodeWidth * 1.4 * scaleFactor
      let minHeight := baseNodeHeight * 1.4 * scaleFactor
      let avgAreaPerNode := width * height / (ns.length : ℚ)
      let targetAreaPerNode := baseNodeWidth * baseNodeHeight * 1.2
      decide (width < minWidth) || decide (height < minHeight) ||
        decide (avgAreaPerNode < targetAreaPerNode)

/-- The center of a node rectangle. -/
def rectCenterX (r : NRect) : ℚ := r.x + r.w / 2
def rectCenterY (r : NRect) : ℚ := r.y + r.h / 2

/-- Models `expandGraphExtent` (lines 1206–1243). -/
def expandGraphExtent (sq : ℕ → ℚ) (ns : List NRect) (minGap : ℚ) : List NRect :=
  if ns.length ≤ 1 then ns
  else
    match ns with
    | [] => ns
    | n0 :: rest =>
      let minX := rest.foldl (fun a r => min a (rectCenterX r)) (rectCenterX n0)
      let minY := rest.foldl (fun a r => min a (rectCenterY r)) (rectCenterY n0)
      let maxX := rest.foldl (fun a r => max a (rectCenterX r)) (rectCenterX n0)
      let maxY := rest.foldl (fun a r => max a (rectCenterY r)) (rectCenterY n0)
      let width := max (maxX - minX) 1
      let height := max (maxY - minY) 1
      let sqrtN := sq ns.length
      let targetWidth := max ((baseNodeWidth + minGap) * sqrtN * 1.25) (minGap * (sqrtN + 1.4))
      let targetHeight := max ((baseNodeHeight + minGap * 0.5) * sqrtN * 1.25)
        (minGap * 0.7 * (sqrtN + 1.4))
      let factor := max (max (targetWidth / width) (targetHeight / height)) 1
      if factor ≤ 1.12 then ns
      else
        let centerX := (minX + maxX) / 2
        let centerY := (minY + maxY) / 2
        ns.map fun r =>
          setNodeCenter r (centerX + (rectCenterX r - centerX) * factor)
            (centerY + (rectCenterY r - centerY) * factor)

/-- Models `minimumDistance` of `applySimpleLayout` (line 1255). -/
def simpleLayoutMinDistance (nodeScale : ℚ) : ℚ :=
  max (max 180 (baseNodeWidth * nodeScale * 0.9)) (baseNodeHeight * nodeScale * 0.7)

/-- Models `componentGap` of `applySimpleLayout` (line 1256). -/
def simpleLayoutComponentGap (nodeScale clusterGapScale : ℚ) : ℚ :=
  max (simpleLayoutMinDistance nodeScale * 2.2) (320 * clusterGapScale)

/-- Models `applySimpleLayout` (lines 1245–1286).  The organic layout and the
component layout are the diagramming library's black boxes: they are passed
in as functions (`organic`, `comp`); `preferredEdgeLength`/`minimumDistance`
configure only those black boxes, except for `componentGap`, which also
feeds `expandGraphExtent`. -/
def applySimpleLayout (organic comp : List NRect → List NRect) (sq : ℕ → ℚ)
    (nodeScale edgeLenScale clusterGapScale : ℚ) (g : List NRect) : List NRect :=
  if g.length = 0 then g
  else
    let componentGap := simpleLayoutComponentGap nodeScale clusterGapScale
    let g1 := organic g
    let g2 := if 1 < g1.length then comp g1 else g1
    let g3 := expandGraphExtent sq g2 componentGap
    if graphBoundsTooTight sq g3 then spreadNodesInGrid g3 else g3

/-!
### `computeMinReadableNodePixelWidth` (lines 679–704) and
`adjustInitialZoomForNodeCount` (lines 1563–1639)
-/

/-- A JavaScript number: a finite rational or any non-finite value
(NaN / ±Infinity, which the source treats uniformly via `Number.isFinite`). -/
inductive JsNumber : Type where
  | finite : ℚ → JsNumber
  | nonFinite : JsNumber

def MIN_READABLE_NODE_PIXEL_WIDTH_NEAR : ℚ := 110
def MIN_READABLE_NODE_PIXEL_WIDTH_FAR : ℚ := 68
def MIN_READABLE_NODE_COUNT : ℚ := 80
def MAX_READABLE_NODE_COUNT : ℚ := 600

def AUTO_MAXIMUM_ZOOM_CAP : ℚ := 12
def AUTO_MINIMUM_ZOOM_FLOOR : ℚ := 0.04

def computeMinReadableNodePixelWidth : JsNumber → ℚ
  | .nonFinite => MIN_READABLE_NODE_PIXEL_WIDTH_NEAR
  | .finite count =>
    if count ≤ 0 then MIN_READABLE_NODE_PIXEL_WIDTH_NEAR
    else if count ≤ MIN_READABLE_NODE_COUNT then MIN_READABLE_NODE_PIXEL_WIDTH_NEAR
    else if MAX_READABLE_NODE_COUNT ≤ count then MIN_READABLE_NODE_PIXEL_WIDTH_FAR
    else
      MIN_READABLE_NODE_PIXEL_WIDTH_NEAR -
        (count - MIN_READABLE_NODE_COUNT) /
            (MAX_READABLE_NODE_COUNT - MIN_READABLE_NODE_COUNT) *
          (MIN_READABLE_NODE_PIXEL_WIDTH_NEAR - MIN_READABLE_NODE_PIXEL_WIDTH_FAR)

/-- The zoom-related state of the graph component (`gc.zoom`,
`gc.minimumZoom`, `gc.maximumZoom`), modelled as finite numbers. -/
structure ZoomSt : Type where
  zoom : ℚ
  minimumZoom : ℚ
  maximumZoom : ℚ

/-- Models `adjustInitialZoomForNodeCount(count)` with the current `nodeScale` and
graph node count; returns the updated component state. -/
def adjustInitialZoomForNodeCount (nodeScale count graphNodesSize : ℚ)
    (st : ZoomSt) : ZoomSt :=
  let currentZoom := st.zoom
  let nodeCount := if 0 < count then count else graphNodesSize
  if nodeCount = 0 then st
  else
    let minimumPixelWidth := computeMinReadableNodePixelWidth (.finite nodeCount)
    let worldNodeWidth := baseNodeWidth * nodeScale
    if worldNodeWidth ≤ 0 then st
    else
      let minZoom := minimumPixelWidth / worldNodeWidth
      if minZoom ≤ 0 then st
      else
        let readableMinZoom := max (minZoom * 0.92) AUTO_MINIMUM_ZOOM_FLOOR
        let targetMinZoom := max AUTO_MINIMUM_ZOOM_FLOOR (readableMinZoom * 0.25)
        let existingMin := st.minimumZoom
        let newMin := if 0.002 < |existingMin - targetMinZoom| then targetMinZoom
          else existingMin
        let existingMax := st.maximumZoom
        let rawDesiredMax := max (max existingMax (readableMinZoom * 4.5)) 6
        let targetMaxZoom := max (readableMinZoom + 0.05)
          (min rawDesiredMax AUTO_MAXIMUM_ZOOM_CAP)
        let newMax := if 0.01 < |existingMax - targetMaxZoom| then targetMaxZoom
          else existingMax
        let comfyUpper := max targetMinZoom (readableMinZoom * 0.5)
        let d1 := if comfyUpper < currentZoom then comfyUpper else currentZoom
        let d2 := if d1 < targetMinZoom then targetMinZoom else d1
        let desiredZoom := if targetMaxZoom < d2 then targetMaxZoom else d2
        let newZoom := if 0.005 < |desiredZoom - currentZoom| then desiredZoom
          else currentZoom
        ⟨newZoom, newMin, newMax⟩

/-!
### `buildManifestEntries` (lines 214–260)
-/

inductive DatasetSource : Type where
  | data : DatasetSource
  | schema : DatasetSource
deriving DecidableEq

structure ManifestEntry : Type where
  id : String
  file : String
  nodes : Nat
  edges : Nat
  source : DatasetSource
deriving DecidableEq

/-- Models `file.replace(/\.json$/i, '')`. -/
def stripJsonSuffix (file : String) : String :=
  if endsWithStr (lowerStr file) ".json" then dropRightStr file 5 else file

/-- Models `isSpider(value)`: the id starts with `spider_` (case-insensitive). -/
def isSpider (s : String) : Bool := startsWithStr (lowerStr (trimStr s)) "spider_"

/-- The entry resolved for one `graphModules` item (the loop body,
lines 222–244).  `manifestByFile` is the map built from the manifest list,
`kinds` is `moduleKinds`. -/
def resolveEntry (manifestByFile : List (String × ManifestEntry))
    (kinds : List (String × DatasetSource)) (fp : String × JVal) : ManifestEntry :=
  let file := fp.1
  let payload := fp.2
  let mEntry := lookupS manifestByFile file
  let nodesCount :=
    match getProp payload "nodes" with
    | .arr xs => xs.length
    | _ => (mEntry.map (·.nodes)).getD 0
  let edgesCount :=
    match getProp payload "edges" with
    | .arr xs => xs.length
    | _ => (mEntry.map (·.edges)).getD 0
  let manifestId := trimStr ((mEntry.map (·.id)).getD "")
  let payloadId :=
    match getProp payload "id" with
    | .str s => trimStr s
    | _ => ""
  let fallbackId := trimStr (stripJsonSuffix file)
  ⟨jsOrStr manifestId (jsOrStr payloadId fallbackId), file, nodesCount, edgesCount,
    (lookupS kinds file).getD .data⟩

/-- The sort comparator (lines 249–259); `lc` is `String.localeCompare`,
a black box of the runtime locale. -/
def cmpEntries (lc : String → String → Int) (a b : ManifestEntry) : Int :=
  if a.source ≠ b.source then (if a.source = .data then -1 else 1)
  else if isSpider a.id ≠ isSpider b.id then (if isSpider a.id then -1 else 1)
  else lc a.id b.id

/-- The `manifestByFile` map (lines 215–218). -/
def manifestByFile (manifest : List ManifestEntry) : List (String × ManifestEntry) :=
  manifest.foldl (fun m e => mset m e.file e) []

/-- Models `buildManifestEntries(manifestEntries)` over the loaded modules
(`graphModules` as an ordered list of file/payload pairs) and `moduleKinds`. -/
def buildManifestEntries (lc : String → String → Int)
    (manifest : List ManifestEntry) (modules : List (String × JVal))
    (kinds : List (String × DatasetSource)) : List ManifestEntry :=
  (modules.map (resolveEntry (manifestByFile manifest) kinds)).mergeSort
    fun a b => decide (cmpEntries lc a b ≤ 0)

/-!
### Per-dataset view / filter settings (lines 575–674, 758–772, 1323, 1356)
-/

inductive FilterMode : Type where
  | highlight : FilterMode
  | filter : FilterMode
deriving DecidableEq

structure FilterSettings : Type where
  filterMode : FilterMode
  nodeFilter : Option String
  relFilter : Option String
deriving DecidableEq

structure ViewSettings : Type where
  nodeScale : ℚ
  edgeLenScale : ℚ
  clusterGapScale : ℚ

/-- The component state relevant to per-dataset settings bookkeeping. -/
structure AppSt : Type where
  filterMode : FilterMode
  activeNodeLabelFilter : Option String
  activeRelTypeFilter : Option String
  nodeScale : ℚ
  edgeLenScale : ℚ
  clusterGapScale : ℚ
  filterSettingsByFile : List (String × FilterSettings)
  settingsByFile : List (String × ViewSettings)
  lastLoadedFile : Option String
  selectedFile : String

/-- Models `ensureFilterSettingsFor(file)` (lines 586–598). -/
def ensureFilterSettingsFor (file : String) (st : AppSt) : AppSt :=
  if file = "" then st
  else
    match lookupS st.filterSettingsByFile file with
    | some saved =>
        { st with filterMode := saved.filterMode,
                  activeNodeLabelFilter := saved.nodeFilter,
                  activeRelTypeFilter := saved.relFilter }
    | none =>
        { st with filterMode := .highlight,
                  activeNodeLabelFilter := none,
                  activeRelTypeFilter := none }

/-- Models `saveFilterSettingsForCurrent()` (lines 599–607) — saves under the
*current* `selectedFile`. -/
def saveFilterSettingsForCurrent (st : AppSt) : AppSt :=
  if st.selectedFile = "" then st
  else
    { st with filterSettingsByFile := (mset st.filterSettingsByFile st.selectedFile
        ⟨st.filterMode, st.activeNodeLabelFilter, st.activeRelTypeFilter⟩) }

/-- Models `ensureSettingsFor(file)` (lines 656–665). -/
def ensureSettingsFor (file : String) (st : AppSt) : AppSt :=
  if file = "" then st
  else
    let m :=
      if (lookupS st.settingsByFile file).isSome then st.settingsByFile
      else mset st.settingsByFile file ⟨1.0, 1.0, 1.2⟩
    let s := (lookupS m file).getD ⟨1.0, 1.0, 1.2⟩
    { st with settingsByFile := m, nodeScale := s.nodeScale,
              edgeLenScale := s.edgeLenScale, clusterGapScale := s.clusterGapScale }

/-- Models `saveSettingsForCurrent()` (lines 666–674). -/
def saveSettingsForCurrent (st : AppSt) : AppSt :=
  if st.selectedFile = "" then st
  else
    { st with settingsByFile := (mset st.settingsByFile st.selectedFile
        ⟨st.nodeScale, st.edgeLenScale, st.clusterGapScale⟩) }

/-- The `watch(selectedFile, ...)` handler (lines 758–772) together with the
settings-relevant effects of a successful `loadGraph` (`ensureSettingsFor` at
line 1323 and `lastLoadedFile = file` at line 1356).  Vue runs the watcher
*after* the ref has changed, so `selectedFile` is already the new file when
`saveFilterSettingsForCurrent` executes. -/
def onSelectedFileChanged (file : String) (st0 : AppSt) : AppSt :=
  let st := { st0 with selectedFile := file }
  let st1 := if osTruthy st.lastLoadedFile then saveFilterSettingsForCurrent st else st
  if file ≠ "" then
    let st2 := ensureSettingsFor file st1
    let st3 := ensureFilterSettingsFor file st2
    let st4 := ensureSettingsFor file st3
    { st4 with lastLoadedFile := some file }
  else st1

/-!
### `applyFilterHighlight` (lines 1660–1721)

Only the filter state and the match counting are modelled; the style
assignments act on the diagramming library and do not feed back into the
cleared/kept decision.  The graph is the list of node tags and edge tags.
-/

structure GraphTags : Type where
  nodeTags : List JVal
  edgeTags : List JVal

/-- Models `((tag)?.type ?? tag?.label ?? tag?.id ?? '').toString()`. -/
def nodeGroup (tag : JVal) : String :=
  jsToString (jsNullishOr (getProp tag "type")
    (jsNullishOr (getProp tag "label") (jsNullishOr (getProp tag "id") (.str ""))))

/-- Models `(etag?.relationship ?? etag?.label ?? '').trim()` (the tag value is a
string whenever `.trim()` does not throw; non-strings are stringified). -/
def edgeTypeOf (etag : JVal) : String :=
  trimStr (jsToString (jsNullishOr (getProp etag "relationship")
    (jsNullishOr (getProp etag "label") (.str ""))))

/-- Models `filter ? value === filter : true` for a possibly-falsy string filter. -/
def filterMatches (flt : Option String) (value : String) : Bool :=
  match flt with
  | some f => if f = "" then true else value = f
  | none => true

structure FilterSt : Type where
  filterMode : FilterMode
  nodeFilter : Option String
  relFilter : Option String
deriving DecidableEq

def countNodeMatches (g : GraphTags) (flt : Option String) : Nat :=
  (g.nodeTags.filter fun t => filterMatches flt (nodeGroup t)).length

def countEdgeMatches (g : GraphTags) (flt : Option String) : Nat :=
  (g.edgeTags.filter fun t => filterMatches flt (edgeTypeOf t)).length

/-- One pass of `applyFilterHighlight` with the trailing auto-clear recursion,
driven by a fuel; the recursion (line 1718) can only happen once, so fuel 2
is exact. -/
def applyFilterAux (g : GraphTags) : Nat → FilterSt → FilterSt
  | 0, st => st
  | fuel + 1, st =>
    let nodeFilter := st.nodeFilter
    let relFilter := st.relFilter
    let doFilter := st.filterMode = FilterMode.filter
    let nodeMatchesCount := countNodeMatches g nodeFilter
    let edgeMatchesCount := countEdgeMatches g relFilter
    if doFilter ∨ (¬doFilter ∧ (osTruthy nodeFilter ∨ osTruthy relFilter)) then
      let clearN := osTruthy nodeFilter && decide (nodeMatchesCount = 0)
      let clearR := osTruthy relFilter && decide (edgeMatchesCount = 0)
      if clearN || clearR then
        applyFilterAux g fuel
          { st with nodeFilter := if clearN then none else st.nodeFilter,
                    relFilter := if clearR then none else st.relFilter }
      else st
    else st

def applyFilterHighlight (g : GraphTags) (st : FilterSt) : FilterSt :=
  applyFilterAux g 2 st

/-!
### Auxiliary definitions used by the verification
-/

/-- Models `g` being the id of some node in `nodes`. -/
def idIn (nodes : List JVal) (g : String) : Prop :=
  ∃ nd ∈ nodes, getProp nd "id" = JVal.str g

/-- Every id reachable through the type reference map points at a node. -/
def refMapOK (nodes : List JVal)
    (refMap : List (String × List (String × String))) : Prop :=
  ∀ ty m k g, lookupS refMap ty = some m → lookupS m k = some g → idIn nodes g

/-- Every id reachable through the Schedule composite map points at a node. -/
def schedOK (nodes : List JVal) (sched : List (String × String)) : Prop :=
  ∀ k g, lookupS sched k = some g → idIn nodes g

/-- The nested node phase only stores ids of pushed nodes in its maps. -/
def stOK (st : NestedSt) : Prop :=
  refMapOK st.nodes st.refMap ∧ schedOK st.nodes st.schedMap

/-- Two-level rank of the manifest sort: data before schema, spider first. -/
def entryRank (e : ManifestEntry) : Nat :=
  (if e.source = .data then 0 else 2) + (if isSpider e.id then 0 else 1)

/-- The layout state handed to `graphBoundsTooTight` inside
`applySimpleLayout` (organic layout, component separation, extent
expansion). -/
def layoutBeforeFallback (organic comp : List NRect → List NRect) (sq : ℕ → ℚ)
    (nodeScale clusterGapScale : ℚ) (g : List NRect) : List NRect :=
  expandGraphExtent sq
    (if 1 < (organic g).length then comp (organic g) else organic g)
    (simpleLayoutComponentGap nodeScale clusterGapScale)

/-- A canonical payload (used as a concrete check input). -/
def c1payload : JVal :=
  .obj [("nodes", .arr [.obj [("id", .str "n1")]]),
        ("edges", .arr [.obj [("from", .str "n1"), ("to", .str "n1")]])]

/-- A non-canonical flat payload (used as a concrete check input). -/
def c2payload : JVal :=
  .obj [("nodes", .arr [.obj [("name", .str "Ann")]])]

/-- A nested-by-type payload with a passthrough edge whose endpoints are
numbers (used as a concrete check input). -/
def c8payload : JVal :=
  .obj [("nodes", .obj [("A", .arr [.obj [("id", .num 1)]])]),
        ("edges", .arr [.obj [("from", .num 1), ("to", .num 1)]])]

/-- A nested-by-type payload (used as a concrete check input). -/
def c9payload : JVal :=
  .obj [("nodes", .obj [("A", .arr [.obj [("id", .num 1)]])])]

/-- The state before switching datasets: dataset `a.json` is loaded with an
active node filter, and both files have stored filter settings. -/
def c6state : AppSt :=
  { filterMode := .highlight,
    activeNodeLabelFilter := some "Person",
    activeRelTypeFilter := none,
    nodeScale := 1,
    edgeLenScale := 1,
    clusterGapScale := 1.2,
    filterSettingsByFile :=
      [("a.json", ⟨.highlight, some "Person", none⟩),
       ("b.json", ⟨.highlight, none, none⟩)],
    settingsByFile := [],
    lastLoadedFile := some "a.json",
    selectedFile := "a.json" }

/-!
### Helper lemmas
-/

theorem lookupS_mset {α : Type} (m : List (String × α)) (k k' : String) (v : α) :
    lookupS (mset m k v) k' = if k' = k then some v else lookupS m k' := by
  induction m with
  | nil =>
      simp only [mset, lookupS]
      by_cases h : k = k'
      · subst h; simp
      · rw [if_neg h, if_neg (fun hh => h hh.symm)]
  | cons hd tl ih =>
      obtain ⟨k0, v0⟩ := hd
      simp only [mset]
      by_cases h0 : k0 = k
      · subst h0
        simp only [if_pos rfl, lookupS]
        by_cases h1 : k0 = k'
        · subst h1; simp
        · rw [if_neg h1, if_neg (fun hh => h1 hh.symm), if_neg h1]
      · rw [if_neg h0]
        simp only [lookupS, ih]
        by_cases h1 : k0 = k'
        · subst h1
          rw [if_pos rfl, if_neg (fun hh => h0 hh), if_pos rfl]
        · rw [if_neg h1]
          by_cases h2 : k' = k
          · rw [if_pos h2, if_pos h2]
          · rw [if_neg h2, if_neg h2, if_neg h1]

theorem getProp_caseANode_id (i : Nat) (n : JVal) :
    getProp (caseANode i n) "id" = .str (caseAType n ++ ":" ++ caseAKey i n) := by
  simp [caseANode, setField, getProp, lookupS_mset]

theorem getProp_caseANode_type (i : Nat) (n : JVal) :
    getProp (caseANode i n) "type" = .str (caseAType n) := by
  simp [caseANode, setField, getProp, lookupS_mset]

theorem getProp_caseANode_label (i : Nat) (n : JVal) :
    getProp (caseANode i n) "label" = .str (caseALabel i n) := by
  simp [caseANode, setField, getProp, lookupS_mset]

theorem getProp_nestedNode_id (ty : String) (i : Nat) (n : JVal) :
    getProp (nestedNode ty i n) "id" = .str (ty ++ ":" ++ nestedKey ty i n) := by
  simp [nestedNode, setField, getProp, lookupS_mset]

theorem strAppend_ne_empty_left (a b : String) (h : a ≠ "") : a ++ b ≠ "" := by
  intro hc
  apply h
  have hd : a.data ++ b.data = [] := by
    have := congrArg String.data hc
    simpa using this
  rcases List.append_eq_nil.mp hd with ⟨h1, _⟩
  cases a
  simp_all

theorem jsOrStr_ne_empty (a b : String) (hb : b ≠ "") : jsOrStr a b ≠ "" := by
  unfold jsOrStr
  split
  · exact hb
  · assumption

theorem caseAType_ne_empty (n : JVal) : caseAType n ≠ "" :=
  jsOrStr_ne_empty _ _ (by decide)

theorem caseALabel_ne_empty (i : Nat) (n : JVal) : caseALabel i n ≠ "" :=
  jsOrStr_ne_empty _ _
    (strAppend_ne_empty_left _ _
      (strAppend_ne_empty_left _ _ (caseAType_ne_empty n)))

theorem caseAFinish_shape (rel : String) (a b : Option String) (out : JVal)
    (h : caseAFinish rel a b = some out) :
    ∃ f t, out = mkCaseAEdge f t rel ∧ f ≠ "" ∧ t ≠ "" := by
  cases a with
  | none => simp [caseAFinish] at h
  | some f =>
      cases b with
      | none => simp [caseAFinish] at h
      | some t =>
          simp only [caseAFinish] at h
          split_ifs at h with hcond
          rw [Bool.and_eq_true, decide_eq_true_eq, decide_eq_true_eq] at hcond
          exact ⟨f, t, (Option.some.injEq _ _ ▸ h).symm, hcond.1, hcond.2⟩

theorem caseAEdge_shape (m : CaseAMaps) (e out : JVal)
    (h : caseAEdge m e = some out) :
    ∃ f t r, out = mkCaseAEdge f t r ∧ f ≠ "" ∧ t ≠ "" := by
  unfold caseAEdge at h
  obtain ⟨f, t, h1, h2, h3⟩ := caseAFinish_shape _ _ _ _ h
  exact ⟨f, t, _, h1, h2, h3⟩

/-- Canonical payloads pass through unchanged (shared helper). -/
theorem normalize_canonical_helper (raw : JVal)
    (h : (isCanonicalNodeArray (getProp raw "nodes") &&
      isCanonicalEdgeArray (getProp raw "edges")) = true) :
    normalizeGraphPayload raw = raw := by
  unfold normalizeGraphPayload
  dsimp only
  rw [h]
  simp

/-- The Case A branch of `normalizeGraphPayload`, as an equation. -/
theorem normalize_caseA_eq (raw : JVal) (xs : List JVal)
    (hn : getProp raw "nodes" = JVal.arr xs)
    (hcond : (isCanonicalNodeArray (getProp raw "nodes") &&
      isCanonicalEdgeArray (getProp raw "edges")) = false) :
    normalizeGraphPayload raw =
      JVal.obj [("id", getProp raw "id"),
        ("nodes", JVal.arr (xs.mapIdx caseANode)),
        ("edges", JVal.arr (match getProp raw "edges" with
          | JVal.arr el => el.filterMap (caseAEdge (caseAMapsFrom 0 xs CaseAMaps.empty))
          | _ => []))] := by
  unfold normalizeGraphPayload
  dsimp only
  rw [hcond]
  simp only [Bool.false_eq_true, if_false]
  rw [hn]

theorem isCanonicalNodeArray_caseA (xs : List JVal) :
    isCanonicalNodeArray (JVal.arr (xs.mapIdx caseANode)) = true := by
  unfold isCanonicalNodeArray
  rw [List.all_eq_true]
  intro x hx
  rw [List.mapIdx_eq_enum_map] at hx
  obtain ⟨⟨i, a⟩, _, hxa⟩ := List.mem_map.mp hx
  subst hxa
  simp only [Function.uncurry_apply_pair]
  rw [Bool.and_eq_true, Bool.and_eq_true]
  refine ⟨⟨?_, ?_⟩, ?_⟩
  · simp [caseANode, JVal.isNull]
  · simp [caseANode, JVal.typeofIsObject]
  · rw [getProp_caseANode_id]
    rfl

theorem isCanonicalEdgeArray_caseAEdges (m : CaseAMaps) (el : List JVal) :
    isCanonicalEdgeArray (JVal.arr (el.filterMap (caseAEdge m))) = true := by
  unfold isCanonicalEdgeArray
  rw [List.all_eq_true]
  intro x hx
  obtain ⟨e, _, he⟩ := List.mem_filterMap.mp hx
  obtain ⟨f, t, r, hshape, -, -⟩ := caseAEdge_shape m e x he
  subst hshape
  simp [mkCaseAEdge, getProp, lookupS, JVal.isNull, JVal.typeofIsObject, JVal.isStr]

/-- The nested branch of `normalizeGraphPayload`, as an equation. -/
theorem normalize_nested_eq (raw : JVal) (entries : List (String × JVal))
    (hn : getProp raw "nodes" = JVal.obj entries) :
    normalizeGraphPayload raw =
      JVal.obj [("id", getProp raw "id"),
        ("nodes", JVal.arr (nestedOuter entries NestedSt.empty).nodes),
        ("edges", JVal.arr (match getProp raw "edges" with
          | JVal.arr el => el.filterMap
              (fun e => renderNEdge (processNestedEdge (nestedOuter entries NestedSt.empty) e))
          | _ => []))] := by
  have hcond : (isCanonicalNodeArray (getProp raw "nodes") &&
      isCanonicalEdgeArray (getProp raw "edges")) = false := by
    rw [hn]
    rfl
  unfold normalizeGraphPayload
  dsimp only
  rw [hcond]
  simp only [Bool.false_eq_true, if_false]
  rw [hn]

theorem computeMinReadable_bounds (q : ℚ) :
    68 ≤ computeMinReadableNodePixelWidth (.finite q) ∧
      computeMinReadableNodePixelWidth (.finite q) ≤ 110 := by
  simp only [computeMinReadableNodePixelWidth, MIN_READABLE_NODE_PIXEL_WIDTH_NEAR,
    MIN_READABLE_NODE_PIXEL_WIDTH_FAR, MIN_READABLE_NODE_COUNT, MAX_READABLE_NODE_COUNT]
  split_ifs with h1 h2 h3
  · norm_num
  · norm_num
  · norm_num
  · push_neg at h2 h3
    constructor
    · have hle : (q - 80) / (600 - 80) * (110 - 68) ≤ 42 := by
        rw [div_mul_eq_mul_div, div_le_iff₀ (by norm_num : (0:ℚ) < 600 - 80)]
        nlinarith
      linarith
    · have hge : 0 ≤ (q - 80) / (600 - 80) * (110 - 68) := by
        apply mul_nonneg
        · apply div_nonneg <;> linarith
        · norm_num
      linarith

theorem minReadable_value (q : ℚ) :
    computeMinReadableNodePixelWidth (.finite q) =
      if q ≤ 80 then 110 else if 600 ≤ q then 68
      else 110 - (q - 80) / 520 * 42 := by
  simp only [computeMinReadableNodePixelWidth, MIN_READABLE_NODE_PIXEL_WIDTH_NEAR,
    MIN_READABLE_NODE_PIXEL_WIDTH_FAR, MIN_READABLE_NODE_COUNT, MAX_READABLE_NODE_COUNT]
  by_cases h0 : q ≤ 0
  · rw [if_pos h0, if_pos (by linarith)]
  · rw [if_neg h0]
    by_cases h1 : q ≤ 80
    · rw [if_pos h1, if_pos h1]
    · rw [if_neg h1, if_neg h1]
      by_cases h2 : 600 ≤ q
      · rw [if_pos h2, if_pos h2]
      · rw [if_neg h2, if_neg h2]
        norm_num

theorem ceilSqrtAux_spec (n : ℕ) :
    ∀ (f k : ℕ), (∃ j, k ≤ j ∧ j ≤ k + f ∧ n ≤ j * j) →
      n ≤ ceilSqrtAux n f k * ceilSqrtAux n f k ∧ k ≤ ceilSqrtAux n f k ∧
        ∀ j, k ≤ j → j < ceilSqrtAux n f k → j * j < n := by
  intro f
  induction f with
  | zero =>
      rintro k ⟨j, h1, h2, h3⟩
      have hjk : j = k := by omega
      subst hjk
      exact ⟨h3, le_refl _, fun j hj1 hj2 => by simp [ceilSqrtAux] at hj2; omega⟩
  | succ f ih =>
      rintro k hex
      simp only [ceilSqrtAux]
      by_cases h : n ≤ k * k
      · rw [if_pos h]
        exact ⟨h, le_refl _, fun j hj1 hj2 => by omega⟩
      · rw [if_neg h]
        obtain ⟨j, h1, h2, h3⟩ := hex
        have hjk : j ≠ k := by rintro rfl; exact h h3
        obtain ⟨r1, r2, r3⟩ := ih (k + 1) ⟨j, by omega, by omega, h3⟩
        refine ⟨r1, by omega, ?_⟩
        intro j2 hj1 hj2
        rcases Nat.eq_or_lt_of_le hj1 with heq | hlt
        · subst heq; omega
        · exact r3 j2 (by omega) hj2

/-- Models `ceilSqrt n` as the integer ceiling of the square root: the least
`k` with `n ≤ k²`. -/
theorem ceilSqrt_spec (n : ℕ) :
    n ≤ ceilSqrt n * ceilSqrt n ∧ ∀ j, j < ceilSqrt n → j * j < n := by
  have hnn : n ≤ n * n := by nlinarith
  obtain ⟨h1, _, h3⟩ := ceilSqrtAux_spec n (n + 1) 0 ⟨n, by omega, by omega, hnn⟩
  exact ⟨h1, fun j hj => h3 j (Nat.zero_le _) hj⟩

theorem ceilSqrt_pos (n : ℕ) (h : 1 ≤ n) : 1 ≤ ceilSqrt n := by
  by_contra hc
  have h0 : ceilSqrt n = 0 := by omega
  have := (ceilSqrt_spec n).1
  rw [h0] at this
  omega

theorem gridCenter_inj (n i j : ℕ) (hn : 2 ≤ n) (hne : i ≠ j) :
    gridCenterX n i ≠ gridCenterX n j ∨ gridCenterY n i ≠ gridCenterY n j := by
  have hc : 1 ≤ gridCols n := ceilSqrt_pos n (by omega)
  by_contra hcon
  push_neg at hcon
  obtain ⟨hx, hy⟩ := hcon
  have hs : (gridSpacingX : ℚ) ≠ 0 := by norm_num [gridSpacingX, baseNodeWidth]
  have hsY : (gridSpacingY : ℚ) ≠ 0 := by norm_num [gridSpacingY, baseNodeHeight]
  have hxx : ((i % gridCols n : ℕ) : ℚ) * gridSpacingX =
      ((j % gridCols n : ℕ) : ℚ) * gridSpacingX := by
    unfold gridCenterX at hx; linarith
  have hyy : ((i / gridCols n : ℕ) : ℚ) * gridSpacingY =
      ((j / gridCols n : ℕ) : ℚ) * gridSpacingY := by
    unfold gridCenterY at hy; linarith
  have hmod : i % gridCols n = j % gridCols n := by
    exact_mod_cast mul_right_cancel₀ hs hxx
  have hdiv : i / gridCols n = j / gridCols n := by
    exact_mod_cast mul_right_cancel₀ hsY hyy
  apply hne
  have hi2 : i = gridCols n * (i / gridCols n) + i % gridCols n :=
    (Nat.div_add_mod i (gridCols n)).symm
  have hj2 : j = gridCols n * (j / gridCols n) + j % gridCols n :=
    (Nat.div_add_mod j (gridCols n)).symm
  rw [hi2, hj2, hmod, hdiv]

theorem spreadNodesInGrid_get (l : List NRect) (h2 : 2 ≤ l.length)
    (i : ℕ) (hi : i < l.length) :
    (spreadNodesInGrid l)[i]? =
      some (setNodeCenter (l.get ⟨i, hi⟩) (gridCenterX l.length i)
        (gridCenterY l.length i)) := by
  unfold spreadNodesInGrid
  rw [if_neg (by omega)]
  have hlen : i < (List.mapIdx
      (fun i r => setNodeCenter r (gridCenterX l.length i) (gridCenterY l.length i))
      l).length := by
    rw [List.length_mapIdx]; exact hi
  rw [List.getElem?_eq_getElem hlen, List.getElem_mapIdx]
  rfl

theorem graphBoundsTooTight_small (sq : ℕ → ℚ) (ns : List NRect)
    (h : ns.length ≤ 3) : graphBoundsTooTight sq ns = false := by
  unfold graphBoundsTooTight
  rw [if_pos h]

theorem countNodeMatches_pos (g : GraphTags) (f : String) (hf : f ≠ "")
    (h : countNodeMatches g (some f) ≠ 0) : ∃ t ∈ g.nodeTags, nodeGroup t = f := by
  unfold countNodeMatches at h
  have hpos : (g.nodeTags.filter fun t => filterMatches (some f) (nodeGroup t)) ≠ [] := by
    intro hnil; rw [hnil] at h; exact h rfl
  obtain ⟨t, ht⟩ := List.exists_mem_of_ne_nil _ hpos
  rw [List.mem_filter] at ht
  refine ⟨t, ht.1, ?_⟩
  have h2 := ht.2
  simp only [filterMatches, if_neg hf] at h2
  exact of_decide_eq_true h2

theorem countEdgeMatches_pos (g : GraphTags) (f : String) (hf : f ≠ "")
    (h : countEdgeMatches g (some f) ≠ 0) : ∃ t ∈ g.edgeTags, edgeTypeOf t = f := by
  unfold countEdgeMatches at h
  have hpos : (g.edgeTags.filter fun t => filterMatches (some f) (edgeTypeOf t)) ≠ [] := by
    intro hnil; rw [hnil] at h; exact h rfl
  obtain ⟨t, ht⟩ := List.exists_mem_of_ne_nil _ hpos
  rw [List.mem_filter] at ht
  refine ⟨t, ht.1, ?_⟩
  have h2 := ht.2
  simp only [filterMatches, if_neg hf] at h2
  exact of_decide_eq_true h2

theorem applyFilterAux_succ (g : GraphTags) (fuel : Nat) (st : FilterSt) :
    applyFilterAux g (fuel + 1) st =
      (if st.filterMode = FilterMode.filter ∨
          (¬ st.filterMode = FilterMode.filter ∧
            (osTruthy st.nodeFilter = true ∨ osTruthy st.relFilter = true)) then
        if (osTruthy st.nodeFilter && decide (countNodeMatches g st.nodeFilter = 0)) ||
            (osTruthy st.relFilter && decide (countEdgeMatches g st.relFilter = 0)) then
          applyFilterAux g fuel
            { st with
              nodeFilter :=
                if osTruthy st.nodeFilter && decide (countNodeMatches g st.nodeFilter = 0)
                then none else st.nodeFilter,
              relFilter :=
                if osTruthy st.relFilter && decide (countEdgeMatches g st.relFilter = 0)
                then none else st.relFilter }
        else st
      else st) := rfl

/-- A state whose truthy filters all have matches is a fixed point of the
auto-clear pass. -/
theorem applyFilterAux_fixed (g : GraphTags) (st : FilterSt)
    (hn : osTruthy st.nodeFilter = true → countNodeMatches g st.nodeFilter ≠ 0)
    (hr : osTruthy st.relFilter = true → countEdgeMatches g st.relFilter ≠ 0) :
    ∀ fuel, applyFilterAux g fuel st = st := by
  intro fuel
  cases fuel with
  | zero => rfl
  | succ f =>
      rw [applyFilterAux_succ]
      have h1 : (osTruthy st.nodeFilter &&
          decide (countNodeMatches g st.nodeFilter = 0)) = false := by
        cases hh : osTruthy st.nodeFilter
        · simp
        · simp only [Bool.true_and]
          exact decide_eq_false (hn hh)
      have h2 : (osTruthy st.relFilter &&
          decide (countEdgeMatches g st.relFilter = 0)) = false := by
        cases hh : osTruthy st.relFilter
        · simp
        · simp only [Bool.true_and]
          exact decide_eq_false (hr hh)
      rw [h1, h2]
      simp

theorem band_decide_false {a : Bool} {P : Prop} [Decidable P]
    (h : (a && decide P) = false) : a = true → ¬P := by
  intro ha hp
  rw [ha, decide_eq_true hp] at h
  simp at h

theorem idIn_mono (ns more : List JVal) (g : String) (h : idIn ns g) :
    idIn (ns ++ more) g := by
  obtain ⟨nd, h1, h2⟩ := h
  exact ⟨nd, List.mem_append_left _ h1, h2⟩

theorem schedOK_mset (ns : List JVal) (sched : List (String × String))
    (k g : String) (hs : schedOK ns sched) (hg : idIn ns g) :
    schedOK ns (mset sched k g) := by
  intro k' g' hl
  rw [lookupS_mset] at hl
  split_ifs at hl with h
  · cases hl; exact hg
  · exact hs k' g' hl

theorem schedOK_schedAdd (ns : List JVal) (sched : List (String × String))
    (n : JVal) (g : String) (hs : schedOK ns sched) (hg : idIn ns g) :
    schedOK ns (schedAdd sched n g) := by
  unfold schedAdd
  dsimp only
  split_ifs with h1 h2
  · exact schedOK_mset _ _ _ _ (schedOK_mset _ _ _ _ hs hg) hg
  · exact schedOK_mset _ _ _ _ hs hg
  · exact hs

theorem refMapOK_mono (ns more : List JVal)
    (m : List (String × List (String × String)))
    (h : refMapOK ns m) : refMapOK (ns ++ more) m := by
  intro ty mm k g h1 h2
  exact idIn_mono _ _ _ (h ty mm k g h1 h2)

theorem schedOK_mono (ns more : List JVal) (m : List (String × String))
    (h : schedOK ns m) : schedOK (ns ++ more) m := by
  intro k g h1
  exact idIn_mono _ _ _ (h k g h1)

/-- Invariant of the inner node loop of the nested case. -/
theorem nestedInner_ok (ty : String) :
    ∀ (xs : List JVal) (i : Nat) (st : NestedSt) (mft : List (String × String)),
      stOK st → schedOK st.nodes mft →
      stOK (nestedInner ty i xs st mft).1 ∧
      schedOK (nestedInner ty i xs st mft).1.nodes (nestedInner ty i xs st mft).2 ∧
      (nestedInner ty i xs st mft).1.refMap = st.refMap := by
  intro xs
  induction xs with
  | nil =>
      intro i st mft h1 h2
      exact ⟨h1, h2, rfl⟩
  | cons n rest ih =>
      intro i st mft h1 h2
      simp only [nestedInner]
      apply ih
      · constructor
        · exact refMapOK_mono _ _ _ h1.1
        · dsimp only
          split_ifs with hsched
          · apply schedOK_schedAdd
            · exact schedOK_mono _ _ _ h1.2
            · exact ⟨nestedNode ty i n,
                List.mem_append_right _ (List.mem_singleton.mpr rfl),
                getProp_nestedNode_id ty i n⟩
          · exact schedOK_mono _ _ _ h1.2
      · dsimp only
        apply schedOK_mset
        · exact schedOK_mono _ _ _ h2
        · exact ⟨nestedNode ty i n,
            List.mem_append_right _ (List.mem_singleton.mpr rfl),
            getProp_nestedNode_id ty i n⟩

/-- Invariant of the outer loop over `Object.entries(nodesRaw)`. -/
theorem nestedOuter_ok :
    ∀ (entries : List (String × JVal)) (st : NestedSt),
      stOK st → stOK (nestedOuter entries st) := by
  intro entries
  induction entries with
  | nil => intro st h; exact h
  | cons hd rest ih =>
      intro st h
      obtain ⟨ty, v⟩ := hd
      cases v with
      | arr xs =>
          simp only [nestedOuter]
          apply ih
          obtain ⟨h1, h2, _⟩ := nestedInner_ok ty xs 0 st [] h (fun k g hl => by
            simp [lookupS] at hl)
          constructor
          · intro ty' m k g hl1 hl2
            dsimp only at hl1 ⊢
            rw [lookupS_mset] at hl1
            split_ifs at hl1 with hty
            · cases hl1
              exact h2 k g hl2
            · exact h1.1 ty' m k g hl1 hl2
          · exact h1.2
      | null => exact ih st h
      | undef => exact ih st h
      | bool b => exact ih st h
      | num q => exact ih st h
      | str s => exact ih st h
      | obj fs => exact ih st h

theorem stOK_empty : stOK NestedSt.empty := by
  constructor
  · intro ty m k g h1 h2
    simp [NestedSt.empty, lookupS] at h1
  · intro k g h1
    simp [NestedSt.empty, lookupS] at h1

theorem nestedEdgeClassic_viaMaps (st : NestedSt) (e out : JVal) (f t : String)
    (hok : stOK st) (h : nestedEdgeClassic st e = .viaMaps out f t) :
    idIn st.nodes f ∧ idIn st.nodes t := by
  unfold nestedEdgeClassic at h
  dsimp only at h
  split_ifs at h with hb2 hsched hfilm
  · -- classic branch, Schedule fallback available with composite keys
    split at h
    case _ f' t' heq1 heq2 =>
      split_ifs at h with hx
      cases h
      obtain ⟨m1, hm1, hl1⟩ := Option.bind_eq_some.mp heq1
      obtain ⟨m2, hm2, hl2⟩ := Option.bind_eq_some.mp heq2
      exact ⟨hok.1 _ _ _ _ hm1 hl1, hok.1 _ _ _ _ hm2 hl2⟩
    case _ hne =>
      split at h
      case _ f' t' heq1 heq2 =>
        split_ifs at h with hx
        cases h
        constructor
        · revert heq1
          split
          case _ g hg =>
            intro hh; cases hh; exact hok.2 _ _ hg
          case _ hg =>
            split
            case _ g hg2 =>
              intro hh; cases hh; exact hok.2 _ _ hg2
            case _ hg2 =>
              intro hh
              obtain ⟨m1, hm1, hl1⟩ := Option.bind_eq_some.mp hh
              exact hok.1 _ _ _ _ hm1 hl1
        · obtain ⟨m2, hm2, hl2⟩ := Option.bind_eq_some.mp heq2
          exact hok.1 _ _ _ _ hm2 hl2
      case _ hne2 => cases h
  · -- classic branch, Schedule fallback without composite keys
    split at h
    case _ f' t' heq1 heq2 =>
      split_ifs at h with hx
      cases h
      obtain ⟨m1, hm1, hl1⟩ := Option.bind_eq_some.mp heq1
      obtain ⟨m2, hm2, hl2⟩ := Option.bind_eq_some.mp heq2
      exact ⟨hok.1 _ _ _ _ hm1 hl1, hok.1 _ _ _ _ hm2 hl2⟩
    case _ hne =>
      split at h
      case _ f' t' heq1 heq2 =>
        split_ifs at h with hx
        cases h
        obtain ⟨m1, hm1, hl1⟩ := Option.bind_eq_some.mp heq1
        obtain ⟨m2, hm2, hl2⟩ := Option.bind_eq_some.mp heq2
        exact ⟨hok.1 _ _ _ _ hm1 hl1, hok.1 _ _ _ _ hm2 hl2⟩
      case _ hne2 => cases h
  · -- classic branch, no Schedule fallback
    split at h
    case _ f' t' heq1 heq2 =>
      split_ifs at h with hx
      cases h
      obtain ⟨m1, hm1, hl1⟩ := Option.bind_eq_some.mp heq1
      obtain ⟨m2, hm2, hl2⟩ := Option.bind_eq_some.mp heq2
      exact ⟨hok.1 _ _ _ _ hm1 hl1, hok.1 _ _ _ _ hm2 hl2⟩
    case _ hne => cases h

theorem processNestedEdge_viaMaps (st : NestedSt) (e out : JVal) (f t : String)
    (hok : stOK st) (h : processNestedEdge st e = .viaMaps out f t) :
    idIn st.nodes f ∧ idIn st.nodes t := by
  unfold processNestedEdge at h
  dsimp only at h
  split_ifs at h with hb1
  · split at h
    case _ f' t' heq1 heq2 =>
      split_ifs at h with hx
      · cases h
        obtain ⟨m1, hm1, hl1⟩ := Option.bind_eq_some.mp heq1
        obtain ⟨m2, hm2, hl2⟩ := Option.bind_eq_some.mp heq2
        exact ⟨hok.1 _ _ _ _ hm1 hl1, hok.1 _ _ _ _ hm2 hl2⟩
      · exact nestedEdgeClassic_viaMaps st e out f t hok h
    case _ hne => exact nestedEdgeClassic_viaMaps st e out f t hok h
  · exact nestedEdgeClassic_viaMaps st e out f t hok h

theorem cmpEntries_le_iff (lc : String → String → Int) (a b : ManifestEntry) :
    cmpEntries lc a b ≤ 0 ↔
      (entryRank a < entryRank b ∨
        (entryRank a = entryRank b ∧ lc a.id b.id ≤ 0)) := by
  unfold cmpEntries entryRank
  rcases hsa : a.source <;> rcases hsb : b.source <;>
    cases hpa : isSpider a.id <;> cases hpb : isSpider b.id <;>
      simp [hsa, hsb, hpa, hpb]

theorem cmpEntries_total (lc : String → String → Int)
    (hTot : ∀ x y, lc x y ≤ 0 ∨ lc y x ≤ 0) (a b : ManifestEntry) :
    (decide (cmpEntries lc a b ≤ 0) || decide (cmpEntries lc b a ≤ 0)) = true := by
  rw [Bool.or_eq_true, decide_eq_true_eq, decide_eq_true_eq,
    cmpEntries_le_iff, cmpEntries_le_iff]
  rcases lt_trichotomy (entryRank a) (entryRank b) with h | h | h
  · exact Or.inl (Or.inl h)
  · rcases hTot a.id b.id with hl | hl
    · exact Or.inl (Or.inr ⟨h, hl⟩)
    · exact Or.inr (Or.inr ⟨h.symm, hl⟩)
  · exact Or.inr (Or.inl h)

theorem cmpEntries_trans (lc : String → String → Int)
    (hTrans : ∀ x y z, lc x y ≤ 0 → lc y z ≤ 0 → lc x z ≤ 0)
    (a b c : ManifestEntry)
    (h1 : decide (cmpEntries lc a b ≤ 0) = true)
    (h2 : decide (cmpEntries lc b c ≤ 0) = true) :
    decide (cmpEntries lc a c ≤ 0) = true := by
  rw [decide_eq_true_eq, cmpEntries_le_iff] at h1 h2 ⊢
  rcases h1 with h1 | ⟨h1e, h1l⟩
  · rcases h2 with h2 | ⟨h2e, _⟩
    · exact Or.inl (lt_trans h1 h2)
    · exact Or.inl (h2e ▸ h1)
  · rcases h2 with h2 | ⟨h2e, h2l⟩
    · exact Or.inl (h1e ▸ h2)
    · exact Or.inr ⟨h1e.trans h2e, hTrans _ _ _ h1l h2l⟩

/-!
### Claim theorems
-/

/-- C1: for every payload whose nodes are a canonical node array (objects
with a string id) and whose edges are a canonical edge array (objects with
string source/from and target/to), `normalizeGraphPayload` returns the
payload unchanged. -/
theorem normalizeGraphPayload_canonical_id (raw : JVal)
    (h1 : isCanonicalNodeArray (getProp raw "nodes") = true)
    (h2 : isCanonicalEdgeArray (getProp raw "edges") = true) :
    normalizeGraphPayload raw = raw := by
  unfold normalizeGraphPayload
  dsimp only
  rw [h1, h2]
  simp

theorem normalizeGraphPayload_canonical_id_witness :
    isCanonicalNodeArray (getProp c1payload "nodes") = true ∧
    isCanonicalEdgeArray (getProp c1payload "edges") = true ∧
    normalizeGraphPayload c1payload = c1payload :=
  ⟨rfl, rfl, normalizeGraphPayload_canonical_id c1payload rfl rfl⟩

/-- C2: in Case A (non-canonical payload whose nodes field is an array of
objects) the output has one node per input element; each output node id is
the string type:key with the key defaulting to the 1-based position, the
type field is set, the label is non-empty, and every emitted edge is a
from/to/relationship/label object with non-empty endpoints; edges that do
not resolve are dropped (the output edge list is no longer than the
input edge list). -/
theorem normalizeGraphPayload_caseA (raw : JVal) (xs : List JVal)
    (hn : getProp raw "nodes" = JVal.arr xs)
    (hobj : ∀ n ∈ xs, ∃ fs, n = JVal.obj fs)
    (hnc : ¬(isCanonicalNodeArray (getProp raw "nodes") = true ∧
        isCanonicalEdgeArray (getProp raw "edges") = true)) :
    ∃ es : List JVal,
      normalizeGraphPayload raw =
        JVal.obj [("id", getProp raw "id"),
          ("nodes", JVal.arr (xs.mapIdx caseANode)), ("edges", JVal.arr es)] ∧
      (xs.mapIdx caseANode).length = xs.length ∧
      (∀ i n, getProp (caseANode i n) "id" =
          JVal.str (caseAType n ++ ":" ++ caseAKey i n)) ∧
      (∀ i n, getProp (caseANode i n) "type" = JVal.str (caseAType n)) ∧
      (∀ i n, ∃ l : String, getProp (caseANode i n) "label" = JVal.str l ∧ l ≠ "") ∧
      (∀ i n, (findIdKey n (caseAType n)).isNone → caseAKey i n = toString (i + 1)) ∧
      (∀ e ∈ es, ∃ f t r, e = mkCaseAEdge f t r ∧ f ≠ "" ∧ t ≠ "") ∧
      (∀ el, getProp raw "edges" = JVal.arr el → es.length ≤ el.length) := by
  have hcond : (isCanonicalNodeArray (getProp raw "nodes") &&
      isCanonicalEdgeArray (getProp raw "edges")) = false := by
    cases h1 : isCanonicalNodeArray (getProp raw "nodes") <;>
      cases h2 : isCanonicalEdgeArray (getProp raw "edges") <;> simp_all
  refine ⟨(match getProp raw "edges" with
    | JVal.arr el => el.filterMap (caseAEdge (caseAMapsFrom 0 xs CaseAMaps.empty))
    | _ => []), ?_, ?_, ?_, ?_, ?_, ?_, ?_, ?_⟩
  · unfold normalizeGraphPayload
    dsimp only
    rw [hcond]
    simp only [Bool.false_eq_true, if_false]
    rw [hn]
  · exact List.length_mapIdx
  · exact getProp_caseANode_id
  · exact getProp_caseANode_type
  · intro i n
    exact ⟨caseALabel i n, getProp_caseANode_label i n, caseALabel_ne_empty i n⟩
  · intro i n hnone
    unfold caseAKey
    rw [Option.isNone_iff_eq_none] at hnone
    rw [hnone]
  · intro e he
    rcases hme : getProp raw "edges" with _ | _ | _ | _ | _ | el | _ <;>
      rw [hme] at he <;>
      first
      | exact absurd he (List.not_mem_nil e)
      | (obtain ⟨x, hx1, hx2⟩ := List.mem_filterMap.mp he
         exact caseAEdge_shape _ _ _ hx2)
  · intro el hel
    rw [hel]
    exact List.length_filterMap_le _ _

theorem normalizeGraphPayload_caseA_witness :
    ∃ es : List JVal, normalizeGraphPayload c2payload =
      JVal.obj [("id", getProp c2payload "id"),
        ("nodes", JVal.arr ([JVal.obj [("name", JVal.str "Ann")]].mapIdx caseANode)),
        ("edges", JVal.arr es)] := by
  obtain ⟨es, h1, -⟩ := normalizeGraphPayload_caseA c2payload
    [JVal.obj [("name", JVal.str "Ann")]] rfl
    (fun n hn => ⟨[("name", JVal.str "Ann")], List.mem_singleton.mp hn⟩)
    (by decide)
  exact ⟨es, h1⟩

/-- C3: applySimpleLayout runs the organic layout plus component
separation; graphs with at most 3 nodes are never judged too tight; when
the too-tight test holds on a non-empty graph the result is the grid
fallback, which places index i at column i mod cols and row i div cols
with cols = ceil(sqrt(n)) (characterized exactly), horizontal spacing
2.3 times the base node width and vertical spacing 2.0 times the base
node height, so distinct indices get distinct centers. -/
theorem applySimpleLayout_spec (organic comp : List NRect → List NRect)
    (sq : ℕ → ℚ) (nodeScale edgeLenScale clusterGapScale : ℚ) (g : List NRect) :
    (∀ l : List NRect, l.length ≤ 3 → graphBoundsTooTight sq l = false) ∧
    (0 < g.length →
      graphBoundsTooTight sq
        (layoutBeforeFallback organic comp sq nodeScale clusterGapScale g) = true →
      applySimpleLayout organic comp sq nodeScale edgeLenScale clusterGapScale g =
        spreadNodesInGrid
          (layoutBeforeFallback organic comp sq nodeScale clusterGapScale g)) ∧
    (∀ l : List NRect, 2 ≤ l.length → ∀ i, ∀ hi : i < l.length,
      (spreadNodesInGrid l)[i]? =
        some (setNodeCenter (l.get ⟨i, hi⟩) (gridCenterX l.length i)
          (gridCenterY l.length i))) ∧
    (∀ n i : ℕ,
      gridCenterX n i = gridStartX n + ((i % ceilSqrt n : ℕ) : ℚ) * (baseNodeWidth * 2.3) ∧
      gridCenterY n i = gridStartY n + ((i / ceilSqrt n : ℕ) : ℚ) * (baseNodeHeight * 2.0)) ∧
    (∀ n i j : ℕ, 2 ≤ n → i ≠ j →
      gridCenterX n i ≠ gridCenterX n j ∨ gridCenterY n i ≠ gridCenterY n j) ∧
    (∀ n : ℕ, n ≤ ceilSqrt n * ceilSqrt n ∧ ∀ j, j < ceilSqrt n → j * j < n) := by
  refine ⟨fun l => graphBoundsTooTight_small sq l, ?_, spreadNodesInGrid_get, ?_,
    gridCenter_inj, ceilSqrt_spec⟩
  · intro hg htight
    unfold applySimpleLayout
    rw [if_neg (by omega)]
    dsimp only
    unfold layoutBeforeFallback at htight
    rw [htight]
    unfold layoutBeforeFallback
    simp
  · intro n i
    exact ⟨rfl, rfl⟩

theorem applySimpleLayout_spec_witness :
    (spreadNodesInGrid [⟨0, 0, 10, 10⟩, ⟨0, 0, 10, 10⟩])[0]? =
      some ⟨-304, -5, 10, 10⟩ := by
  have h := (applySimpleLayout_spec id id (fun _ => 0) 1 1 1 []).2.2.1
    [⟨0, 0, 10, 10⟩, ⟨0, 0, 10, 10⟩] (by norm_num) 0 (by norm_num)
  rw [h]
  norm_num [setNodeCenter, gridCenterX, gridCenterY, gridStartX, gridStartY,
    gridCols, gridRows, gridSpacingX, gridSpacingY, baseNodeWidth, baseNodeHeight,
    ceilSqrt, ceilSqrtAux, List.get]

/-- C4: computeMinReadableNodePixelWidth is piecewise linear and
non-increasing in the node count: 110 for counts at most 80 and for
non-finite counts, 68 for counts at least 600, the linear interpolation
between 110 and 68 strictly in between, and always within [68, 110]. -/
theorem computeMinReadableNodePixelWidth_spec :
    (∀ q : ℚ, q ≤ 80 → computeMinReadableNodePixelWidth (.finite q) = 110) ∧
    computeMinReadableNodePixelWidth .nonFinite = 110 ∧
    (∀ q : ℚ, 600 ≤ q → computeMinReadableNodePixelWidth (.finite q) = 68) ∧
    (∀ q : ℚ, 80 < q → q < 600 →
      computeMinReadableNodePixelWidth (.finite q) =
        110 - (q - 80) / 520 * (110 - 68)) ∧
    (∀ j : JsNumber, 68 ≤ computeMinReadableNodePixelWidth j ∧
      computeMinReadableNodePixelWidth j ≤ 110) ∧
    (∀ q r : ℚ, q ≤ r →
      computeMinReadableNodePixelWidth (.finite r) ≤
        computeMinReadableNodePixelWidth (.finite q)) := by
  refine ⟨?_, rfl, ?_, ?_, ?_, ?_⟩
  · intro q hq
    rw [minReadable_value, if_pos hq]
  · intro q hq
    rw [minReadable_value, if_neg (by linarith), if_pos hq]
  · intro q h1 h2
    rw [minReadable_value, if_neg (by linarith), if_neg (by linarith)]
    norm_num
  · intro j
    cases j with
    | nonFinite => constructor <;> norm_num [computeMinReadableNodePixelWidth,
        MIN_READABLE_NODE_PIXEL_WIDTH_NEAR]
    | finite q => exact computeMinReadable_bounds q
  · intro q r hqr
    rw [minReadable_value q, minReadable_value r]
    by_cases hq1 : q ≤ 80
    · rw [if_pos hq1]
      by_cases hr1 : r ≤ 80
      · rw [if_pos hr1]
      · rw [if_neg hr1]
        by_cases hr2 : 600 ≤ r
        · rw [if_pos hr2]; norm_num
        · rw [if_neg hr2]
          have := computeMinReadable_bounds r
          rw [minReadable_value r, if_neg hr1, if_neg hr2] at this
          linarith [this.2]
    · rw [if_neg hq1]
      have hr1 : ¬ r ≤ 80 := by intro h; exact hq1 (by linarith)
      rw [if_neg hr1]
      by_cases hq2 : 600 ≤ q
      · rw [if_pos hq2, if_pos (by linarith)]
      · rw [if_neg hq2]
        by_cases hr2 : 600 ≤ r
        · rw [if_pos hr2]
          have := computeMinReadable_bounds q
          rw [minReadable_value q, if_neg hq1, if_neg hq2] at this
          linarith [this.1]
        · rw [if_neg hr2]
          have : (q - 80) / 520 * 42 ≤ (r - 80) / 520 * 42 := by gcongr
          linarith

theorem computeMinReadableNodePixelWidth_spec_witness :
    computeMinReadableNodePixelWidth (.finite 340) = 89 := by
  have h := computeMinReadableNodePixelWidth_spec
  have e := h.2.2.2.1 340 (by norm_num) (by norm_num)
  rw [e]; norm_num

/-- C5 (amended): under nodeScale in [0.6, 2.5] and a positive count, the
stored minimumZoom is at least 0.038 (the floor 0.04 minus the 0.002
no-update tolerance), the stored maximumZoom is at most 12.01 (the cap 12
plus the 0.01 tolerance), minimumZoom is at most maximumZoom, and any zoom
the function assigns lies within the bounds widened by those tolerances;
the exact floor/cap/containment stated by the spec fails because a stale
value within a tolerance window is kept. -/
theorem adjustInitialZoomForNodeCount_bounds (s c gsize : ℚ) (st : ZoomSt)
    (hs1 : 3/5 ≤ s) (hs2 : s ≤ 5/2) (hc : 0 < c) :
    19/500 ≤ (adjustInitialZoomForNodeCount s c gsize st).minimumZoom ∧
    (adjustInitialZoomForNodeCount s c gsize st).maximumZoom ≤ 1201/100 ∧
    (adjustInitialZoomForNodeCount s c gsize st).minimumZoom ≤
      (adjustInitialZoomForNodeCount s c gsize st).maximumZoom ∧
    ((adjustInitialZoomForNodeCount s c gsize st).zoom ≠ st.zoom →
      (adjustInitialZoomForNodeCount s c gsize st).minimumZoom - 1/500 ≤
          (adjustInitialZoomForNodeCount s c gsize st).zoom ∧
        (adjustInitialZoomForNodeCount s c gsize st).zoom ≤
          (adjustInitialZoomForNodeCount s c gsize st).maximumZoom + 1/100) := by
  have hmpw := computeMinReadable_bounds c
  unfold adjustInitialZoomForNodeCount
  dsimp only
  rw [if_pos hc]
  rw [if_neg (show ¬ c = 0 by intro h; rw [h] at hc; exact lt_irrefl 0 hc)]
  have hwpos : (0:ℚ) < baseNodeWidth * s := by
    norm_num [baseNodeWidth]; linarith
  rw [if_neg (not_le.mpr hwpos)]
  have hmzpos : (0:ℚ) < computeMinReadableNodePixelWidth (.finite c) / (baseNodeWidth * s) :=
    div_pos (by linarith [hmpw.1]) hwpos
  rw [if_neg (not_le.mpr hmzpos)]
  set mz := computeMinReadableNodePixelWidth (.finite c) / (baseNodeWidth * s) with hmz_def
  have hw1 : (156:ℚ) ≤ baseNodeWidth * s := by norm_num [baseNodeWidth]; linarith
  have hmz_ub : mz ≤ 110 / 156 := by
    rw [hmz_def]
    exact div_le_div₀ (by norm_num) hmpw.2 (by norm_num) hw1
  set rmz := max (mz * 0.92) AUTO_MINIMUM_ZOOM_FLOOR with hrmz_def
  have hrmz_lb : (1/25 : ℚ) ≤ rmz := by
    rw [hrmz_def]; exact le_trans (by norm_num [AUTO_MINIMUM_ZOOM_FLOOR]) (le_max_right _ _)
  have hrmz_ub : rmz ≤ 253/390 := by
    rw [hrmz_def]
    apply max_le
    · nlinarith
    · norm_num [AUTO_MINIMUM_ZOOM_FLOOR]
  set tmz := max AUTO_MINIMUM_ZOOM_FLOOR (rmz * 0.25) with htmz_def
  have htmz_lb : (1/25 : ℚ) ≤ tmz := by
    rw [htmz_def]; exact le_trans (by norm_num [AUTO_MINIMUM_ZOOM_FLOOR]) (le_max_left _ _)
  have htmz_ub : tmz ≤ 253/1560 := by
    rw [htmz_def]
    apply max_le
    · norm_num [AUTO_MINIMUM_ZOOM_FLOOR]
    · nlinarith
  set rawMax := max (max st.maximumZoom (rmz * 4.5)) 6 with hraw_def
  have hraw_lb : (6:ℚ) ≤ rawMax := le_max_right _ _
  set tMax := max (rmz + 0.05) (min rawMax AUTO_MAXIMUM_ZOOM_CAP) with htMax_def
  have htMax_lb : (6:ℚ) ≤ tMax := by
    rw [htMax_def]
    exact le_trans (le_min hraw_lb (by norm_num [AUTO_MAXIMUM_ZOOM_CAP])) (le_max_right _ _)
  have htMax_ub : tMax ≤ 12 := by
    rw [htMax_def]
    apply max_le
    · nlinarith
    · exact le_trans (min_le_right _ _) (by norm_num [AUTO_MAXIMUM_ZOOM_CAP])
  set comfy := max tmz (rmz * 0.5) with hcomfy_def
  have hcomfy_lb : tmz ≤ comfy := le_max_left _ _
  have hcomfy_ub : comfy ≤ 253/780 := by
    rw [hcomfy_def]
    apply max_le
    · linarith
    · nlinarith
  constructor
  · dsimp only
    split_ifs with h
    · linarith
    · rw [not_lt, abs_le] at h
      linarith [h.1]
  constructor
  · dsimp only
    split_ifs with h
    · linarith
    · rw [not_lt, abs_le] at h
      linarith [h.2]
  constructor
  · dsimp only
    split_ifs with h1 h2 <;>
      [skip; skip; skip; skip] <;> first
      | linarith
      | (rw [not_lt, abs_le] at *; linarith)
  · dsimp only
    intro hz
    set d1 := if comfy < st.zoom then comfy else st.zoom with hd1_def
    have hd1_ub : d1 ≤ comfy := by
      rw [hd1_def]; split_ifs with h
      · exact le_refl _
      · exact le_of_not_lt h
    set d2 := if d1 < tmz then tmz else d1 with hd2_def
    have hd2_lb : tmz ≤ d2 := by
      rw [hd2_def]; split_ifs with h
      · exact le_refl _
      · exact le_of_not_lt h
    have hd2_ub : d2 ≤ comfy := by
      rw [hd2_def]; split_ifs with h
      · linarith
      · exact hd1_ub
    have hdes : (if tMax < d2 then tMax else d2) = d2 := by
      rw [if_neg]; intro h; linarith
    rw [hdes] at hz ⊢
    by_cases hnz : (0.005 : ℚ) < |d2 - st.zoom|
    · rw [if_pos hnz] at hz ⊢
      constructor
      · split_ifs with h
        · linarith
        · rw [not_lt, abs_le] at h
          linarith [h.2]
      · split_ifs with h
        · linarith
        · rw [not_lt, abs_le] at h
          linarith [h.1]
    · rw [if_neg hnz] at hz
      exact absurd rfl hz

theorem adjustInitialZoomForNodeCount_bounds_witness :
    (3/5 : ℚ) ≤ 1 ∧ (0:ℚ) < 10 ∧
    19/500 ≤ (adjustInitialZoomForNodeCount 1 10 0 ⟨1, 1/25, 4⟩).minimumZoom :=
  ⟨by norm_num, by norm_num,
    (adjustInitialZoomForNodeCount_bounds 1 10 0 ⟨1, 1/25, 4⟩
      (by norm_num) (by norm_num) (by norm_num)).1⟩

theorem adjustInitialZoom_counterexample :
    (3/5 : ℚ) ≤ 5/2 ∧ (0:ℚ) < 1000 ∧
    (adjustInitialZoomForNodeCount (5/2) 1000 0 ⟨1, 77/2000, 6⟩).minimumZoom <
      AUTO_MINIMUM_ZOOM_FLOOR := by
  refine ⟨by norm_num, by norm_num, ?_⟩
  have h1 : computeMinReadableNodePixelWidth (.finite (1000:ℚ)) = 68 := by
    simp only [computeMinReadableNodePixelWidth, MIN_READABLE_NODE_COUNT,
      MAX_READABLE_NODE_COUNT, MIN_READABLE_NODE_PIXEL_WIDTH_FAR,
      MIN_READABLE_NODE_PIXEL_WIDTH_NEAR]
    norm_num
  unfold adjustInitialZoomForNodeCount
  dsimp only
  rw [if_pos (by norm_num : (0:ℚ) < 1000)]
  rw [if_neg (by norm_num : ¬ (1000:ℚ) = 0)]
  rw [if_neg (by norm_num [baseNodeWidth] : ¬ baseNodeWidth * (5/2:ℚ) ≤ 0)]
  rw [h1]
  rw [if_neg (by norm_num [baseNodeWidth] : ¬ (68:ℚ) / (baseNodeWidth * (5/2)) ≤ 0)]
  dsimp only
  norm_num [baseNodeWidth, AUTO_MINIMUM_ZOOM_FLOOR, AUTO_MAXIMUM_ZOOM_CAP,
    max_def, min_def, abs]

/-- C6: the selectedFile watcher saves the previous dataset's filters under
the NEW file's key (selectedFile has already changed when the watcher
runs), so switching from a.json (node filter Person) to b.json overwrites
b.json's stored empty filter with Person and then restores Person as the
active filter, modifying another file's stored settings; this contradicts
the claimed per-file isolation. -/
theorem selectedFile_watcher_clobbers :
    lookupS (onSelectedFileChanged "b.json" c6state).filterSettingsByFile "b.json" =
      some ⟨.highlight, some "Person", none⟩ ∧
    (onSelectedFileChanged "b.json" c6state).activeNodeLabelFilter = some "Person" ∧
    lookupS c6state.filterSettingsByFile "b.json" = some ⟨.highlight, none, none⟩ ∧
    lookupS (onSelectedFileChanged "b.json" c6state).filterSettingsByFile "a.json" =
      some ⟨.highlight, some "Person", none⟩ :=
  ⟨rfl, rfl, rfl, rfl⟩

/-- C7: buildManifestEntries emits one entry per module file; node/edge
counts come from the payload arrays when present, else the manifest entry,
else 0; the id is the first non-empty of manifest id, payload id and the
file name with .json stripped; source comes from the kinds table; and the
result is sorted data-before-schema, spider ids first within a source,
ties by the locale comparison. -/
theorem buildManifestEntries_spec (lc : String → String → Int)
    (manifest : List ManifestEntry) (modules : List (String × JVal))
    (kinds : List (String × DatasetSource))
    (hTot : ∀ x y, lc x y ≤ 0 ∨ lc y x ≤ 0)
    (hTrans : ∀ x y z, lc x y ≤ 0 → lc y z ≤ 0 → lc x z ≤ 0) :
    (buildManifestEntries lc manifest modules kinds).Perm
      (modules.map (resolveEntry (manifestByFile manifest) kinds)) ∧
    (buildManifestEntries lc manifest modules kinds).length = modules.length ∧
    List.Pairwise (fun a b => cmpEntries lc a b ≤ 0)
      (buildManifestEntries lc manifest modules kinds) ∧
    (∀ f p xs, getProp p "nodes" = JVal.arr xs →
      (resolveEntry (manifestByFile manifest) kinds (f, p)).nodes = xs.length) ∧
    (∀ f p xs, getProp p "edges" = JVal.arr xs →
      (resolveEntry (manifestByFile manifest) kinds (f, p)).edges = xs.length) ∧
    (∀ f p me, (∀ xs, getProp p "nodes" ≠ JVal.arr xs) →
      lookupS (manifestByFile manifest) f = some me →
      (resolveEntry (manifestByFile manifest) kinds (f, p)).nodes = me.nodes) ∧
    (∀ f p, (∀ xs, getProp p "nodes" ≠ JVal.arr xs) →
      lookupS (manifestByFile manifest) f = none →
      (resolveEntry (manifestByFile manifest) kinds (f, p)).nodes = 0) ∧
    (∀ f p me, lookupS (manifestByFile manifest) f = some me →
      trimStr me.id ≠ "" →
      (resolveEntry (manifestByFile manifest) kinds (f, p)).id = trimStr me.id) ∧
    (∀ f p s, lookupS (manifestByFile manifest) f = none →
      getProp p "id" = JVal.str s → trimStr s ≠ "" →
      (resolveEntry (manifestByFile manifest) kinds (f, p)).id = trimStr s) ∧
    (∀ f p, lookupS (manifestByFile manifest) f = none →
      (∀ s, getProp p "id" ≠ JVal.str s) →
      (resolveEntry (manifestByFile manifest) kinds (f, p)).id =
        trimStr (stripJsonSuffix f)) ∧
    (∀ f p, (resolveEntry (manifestByFile manifest) kinds (f, p)).source =
      (lookupS kinds f).getD .data) ∧
    (∀ f p, (resolveEntry (manifestByFile manifest) kinds (f, p)).file = f) := by
  refine ⟨?_, ?_, ?_, ?_, ?_, ?_, ?_, ?_, ?_, ?_, ?_, ?_⟩
  · exact List.mergeSort_perm _ _
  · unfold buildManifestEntries
    rw [(List.mergeSort_perm _ _).length_eq, List.length_map]
  · have hs := @List.sorted_mergeSort ManifestEntry
      (fun a b => decide (cmpEntries lc a b ≤ 0))
      (cmpEntries_trans lc hTrans) (cmpEntries_total lc hTot)
      (modules.map (resolveEntry (manifestByFile manifest) kinds))
    exact hs.imp fun h => of_decide_eq_true h
  · intro f p xs hx
    unfold resolveEntry
    dsimp only
    rw [hx]
  · intro f p xs hx
    unfold resolveEntry
    dsimp only
    rw [hx]
  · intro f p me hnx hme
    unfold resolveEntry
    dsimp only
    rw [hme]
    rcases hv : getProp p "nodes" with _ | _ | _ | _ | _ | xs | _
    · rfl
    · rfl
    · rfl
    · rfl
    · rfl
    · exact absurd hv (hnx xs)
    · rfl
  · intro f p hnx hme
    unfold resolveEntry
    dsimp only
    rw [hme]
    rcases hv : getProp p "nodes" with _ | _ | _ | _ | _ | xs | _
    · rfl
    · rfl
    · rfl
    · rfl
    · rfl
    · exact absurd hv (hnx xs)
    · rfl
  · intro f p me hme hid
    unfold resolveEntry
    dsimp only
    rw [hme]
    simp only [Option.map_some', Option.getD_some, jsOrStr]
    rw [if_neg hid]
  · intro f p s hme hid hne
    unfold resolveEntry
    dsimp only
    rw [hme, hid]
    simp only [Option.map_none', Option.getD_none, jsOrStr]
    rw [if_pos (show trimStr "" = "" from rfl), if_neg hne]
  · intro f p hme hid
    unfold resolveEntry
    dsimp only
    rw [hme]
    simp only [Option.map_none', Option.getD_none, jsOrStr]
    rcases hv : getProp p "id" with _ | _ | _ | _ | s | _ | _
    · rfl
    · rfl
    · rfl
    · rfl
    · exact absurd hv (hid s)
    · rfl
    · rfl
  · intro f p
    rfl
  · intro f p
    rfl

theorem buildManifestEntries_spec_witness :
    (buildManifestEntries (fun _ _ => 0) [] [("x.json", JVal.obj [])] []).length = 1 := by
  have h := buildManifestEntries_spec (fun _ _ => 0) [] [("x.json", JVal.obj [])] []
    (fun x y => Or.inl (le_refl 0)) (fun x y z h1 h2 => le_refl 0)
  exact h.2.1

/-- C8 (amended): normalizeGraphPayload is idempotent on every payload
whose nodes field is an array and on every payload whose nodes field is
neither an array nor an object; only the nested-by-type case (nodes is an
object) can violate idempotence. -/
theorem normalizeGraphPayload_idem_unless_nested (raw : JVal)
    (h : (∃ xs, getProp raw "nodes" = JVal.arr xs) ∨
      ((∀ xs, getProp raw "nodes" ≠ JVal.arr xs) ∧
        (∀ entries, getProp raw "nodes" ≠ JVal.obj entries))) :
    normalizeGraphPayload (normalizeGraphPayload raw) = normalizeGraphPayload raw := by
  by_cases hcan : (isCanonicalNodeArray (getProp raw "nodes") &&
      isCanonicalEdgeArray (getProp raw "edges")) = true
  · have h1 := normalize_canonical_helper raw hcan
    rw [h1]
    exact h1
  · have hcond : (isCanonicalNodeArray (getProp raw "nodes") &&
        isCanonicalEdgeArray (getProp raw "edges")) = false :=
      Bool.eq_false_iff.mpr hcan
    rcases h with ⟨xs, hn⟩ | ⟨harr, hentries⟩
    · have heq := normalize_caseA_eq raw xs hn hcond
      rw [heq]
      apply normalize_canonical_helper
      rw [Bool.and_eq_true]
      constructor
      · have : getProp (JVal.obj [("id", getProp raw "id"),
            ("nodes", JVal.arr (xs.mapIdx caseANode)),
            ("edges", JVal.arr (match getProp raw "edges" with
              | JVal.arr el => el.filterMap (caseAEdge (caseAMapsFrom 0 xs CaseAMaps.empty))
              | _ => []))]) "nodes" = JVal.arr (xs.mapIdx caseANode) := by
          simp [getProp, lookupS]
        rw [this]
        exact isCanonicalNodeArray_caseA xs
      · have : getProp (JVal.obj [("id", getProp raw "id"),
            ("nodes", JVal.arr (xs.mapIdx caseANode)),
            ("edges", JVal.arr (match getProp raw "edges" with
              | JVal.arr el => el.filterMap (caseAEdge (caseAMapsFrom 0 xs CaseAMaps.empty))
              | _ => []))]) "edges" = JVal.arr (match getProp raw "edges" with
              | JVal.arr el => el.filterMap (caseAEdge (caseAMapsFrom 0 xs CaseAMaps.empty))
              | _ => []) := by
          simp [getProp, lookupS]
        rw [this]
        rcases hme : getProp raw "edges" with _ | _ | _ | _ | _ | el | _
        · rfl
        · rfl
        · rfl
        · rfl
        · rfl
        · exact isCanonicalEdgeArray_caseAEdges _ el
        · rfl
    · have h1 : normalizeGraphPayload raw = raw := by
        unfold normalizeGraphPayload
        dsimp only
        rw [hcond]
        simp only [Bool.false_eq_true, if_false]
      rw [h1]
      exact h1

theorem normalizeGraphPayload_idem_unless_nested_witness :
    normalizeGraphPayload (normalizeGraphPayload (JVal.obj [("nodes", JVal.arr [])])) =
      normalizeGraphPayload (JVal.obj [("nodes", JVal.arr [])]) :=
  normalizeGraphPayload_idem_unless_nested (JVal.obj [("nodes", JVal.arr [])])
    (Or.inl ⟨[], rfl⟩)

/-- C8 counterexample: a nested-by-type payload on which normalization is
not idempotent; the raw passthrough edge keeps numeric endpoints, so the
output is not canonical and the second pass rewrites the node ids. -/
theorem normalizeGraphPayload_not_idempotent :
    ¬ normalizeGraphPayload (normalizeGraphPayload c8payload) =
      normalizeGraphPayload c8payload := by
  intro h
  have h2 := congrArg (fun v =>
    match getProp v "nodes" with
    | JVal.arr (n :: _) => getProp n "id"
    | _ => JVal.undef) h
  have e1 : (fun v =>
    match getProp v "nodes" with
    | JVal.arr (n :: _) => getProp n "id"
    | _ => JVal.undef) (normalizeGraphPayload (normalizeGraphPayload c8payload)) =
      JVal.str "A:A:1" := rfl
  have e2 : (fun v =>
    match getProp v "nodes" with
    | JVal.arr (n :: _) => getProp n "id"
    | _ => JVal.undef) (normalizeGraphPayload c8payload) = JVal.str "A:1" := rfl
  rw [e1, e2] at h2
  have h3 := congrArg (fun v => match v with | JVal.str s => s | _ => "") h2
  exact absurd h3 (by decide)

/-- C9: in the nested-by-type case the output is the nodes accumulated by
the outer loop plus the edges surviving the edge loop, and every edge the
loop emits through the mappings format or the source_value/target_value
format (including the Schedule composite-key fallback) has both endpoints
equal to the id of some node in the output node list. -/
theorem normalizeGraphPayload_nested_edges_resolve (raw : JVal)
    (entries : List (String × JVal))
    (hn : getProp raw "nodes" = JVal.obj entries) :
    normalizeGraphPayload raw =
      JVal.obj [("id", getProp raw "id"),
        ("nodes", JVal.arr (nestedOuter entries NestedSt.empty).nodes),
        ("edges", JVal.arr (match getProp raw "edges" with
          | JVal.arr el => el.filterMap
              (fun e => renderNEdge (processNestedEdge (nestedOuter entries NestedSt.empty) e))
          | _ => []))] ∧
    (∀ e out f t,
      processNestedEdge (nestedOuter entries NestedSt.empty) e = NEdgeRes.viaMaps out f t →
      (∃ nd ∈ (nestedOuter entries NestedSt.empty).nodes, getProp nd "id" = JVal.str f) ∧
      (∃ nd ∈ (nestedOuter entries NestedSt.empty).nodes, getProp nd "id" = JVal.str t)) := by
  constructor
  · exact normalize_nested_eq raw entries hn
  · intro e out f t h
    exact processNestedEdge_viaMaps _ _ _ _ _ (nestedOuter_ok entries _ stOK_empty) h

theorem normalizeGraphPayload_nested_edges_resolve_witness :
    (∃ nd ∈ (nestedOuter [("A", JVal.arr [JVal.obj [("id", JVal.num 1)]])]
        NestedSt.empty).nodes, getProp nd "id" = JVal.str "A:1") ∧
    (∃ nd ∈ (nestedOuter [("A", JVal.arr [JVal.obj [("id", JVal.num 1)]])]
        NestedSt.empty).nodes, getProp nd "id" = JVal.str "A:1") := by
  have h := normalizeGraphPayload_nested_edges_resolve c9payload
    [("A", JVal.arr [JVal.obj [("id", JVal.num 1)]])] rfl
  exact h.2
    (JVal.obj [("source", JVal.str "A"), ("target", JVal.str "A"),
      ("mappings", JVal.obj [("source_id", JVal.num 1), ("target_id", JVal.num 1)])])
    (JVal.obj [("from", JVal.str "A:1"), ("to", JVal.str "A:1"),
      ("relationship", JVal.str ""), ("label", JVal.str "")])
    "A:1" "A:1" rfl

/-- C10: after applyFilterHighlight returns, any remaining truthy node
filter matches at least one node tag and any remaining truthy relationship
filter matches at least one edge tag; a truthy filter with zero matches is
cleared by the auto-clear pass. -/
theorem applyFilterHighlight_spec (g : GraphTags) (st : FilterSt) :
    (∀ f, (applyFilterHighlight g st).nodeFilter = some f → f ≠ "" →
      ∃ t ∈ g.nodeTags, nodeGroup t = f) ∧
    (∀ r, (applyFilterHighlight g st).relFilter = some r → r ≠ "" →
      ∃ t ∈ g.edgeTags, edgeTypeOf t = r) := by
  have e0 : applyFilterHighlight g st = applyFilterAux g (1 + 1) st := rfl
  rw [e0, applyFilterAux_succ]
  by_cases hcond : st.filterMode = FilterMode.filter ∨
      (¬ st.filterMode = FilterMode.filter ∧
        (osTruthy st.nodeFilter = true ∨ osTruthy st.relFilter = true))
  · rw [if_pos hcond]
    generalize hcn : (osTruthy st.nodeFilter && decide (countNodeMatches g st.nodeFilter = 0)) = cn
    generalize hcr : (osTruthy st.relFilter && decide (countEdgeMatches g st.relFilter = 0)) = cr
    cases cn with
    | false =>
        cases cr with
        | false =>
            simp only [Bool.or_self, Bool.false_eq_true, if_false]
            constructor
            · intro f hf hfne
              apply countNodeMatches_pos g f hfne
              have := band_decide_false hcn
              rw [hf] at this
              exact this (by simp [osTruthy, hfne])
            · intro r hrf hrne
              apply countEdgeMatches_pos g r hrne
              have := band_decide_false hcr
              rw [hrf] at this
              exact this (by simp [osTruthy, hrne])
        | true =>
            simp only [Bool.or_true, if_true, Bool.false_eq_true, if_false]
            rw [applyFilterAux_fixed g _ ?hn ?hr 1]
            case hn =>
              intro ht
              exact fun hz => band_decide_false hcn ht hz
            case hr =>
              simp [osTruthy]
            constructor
            · intro f hf hfne
              dsimp only at hf
              apply countNodeMatches_pos g f hfne
              have := band_decide_false hcn
              rw [hf] at this
              exact this (by simp [osTruthy, hfne])
            · intro r hrf hrne
              simp at hrf
    | true =>
        cases cr with
        | false =>
            simp only [Bool.true_or, if_true, Bool.false_eq_true, if_false]
            rw [applyFilterAux_fixed g _ ?hn2 ?hr2 1]
            case hn2 =>
              simp [osTruthy]
            case hr2 =>
              intro ht
              exact fun hz => band_decide_false hcr ht hz
            constructor
            · intro f hf hfne
              simp at hf
            · intro r hrf hrne
              dsimp only at hrf
              apply countEdgeMatches_pos g r hrne
              have := band_decide_false hcr
              rw [hrf] at this
              exact this (by simp [osTruthy, hrne])
        | true =>
            simp only [Bool.or_self, if_true]
            rw [applyFilterAux_fixed g _ (by simp [osTruthy]) (by simp [osTruthy]) 1]
            constructor
            · intro f hf hfne
              simp at hf
            · intro r hrf hrne
              simp at hrf
  · rw [if_neg hcond]
    constructor
    · intro f hf hfne
      exfalso
      apply hcond
      by_cases hm : st.filterMode = FilterMode.filter
      · exact Or.inl hm
      · refine Or.inr ⟨hm, Or.inl ?_⟩
        rw [hf]
        simp [osTruthy, hfne]
    · intro r hrf hrne
      exfalso
      apply hcond
      by_cases hm : st.filterMode = FilterMode.filter
      · exact Or.inl hm
      · refine Or.inr ⟨hm, Or.inr ?_⟩
        rw [hrf]
        simp [osTruthy, hrne]

theorem applyFilterHighlight_spec_witness :
    ∃ t ∈ (GraphTags.mk [JVal.obj [("type", JVal.str "Person")]] []).nodeTags,
      nodeGroup t = "Person" := by
  have h := applyFilterHighlight_spec
    (GraphTags.mk [JVal.obj [("type", JVal.str "Person")]] [])
    (FilterSt.mk FilterMode.highlight (some "Person") none)
  exact h.1 "Person" rfl (by decide)
